import Mathlib

/-!
Shallow embedding of `ips.go` (containerbuddy IP-address resolution).

Machine integers are modelled as `Nat` (all values involved are byte values,
group values, or small counters, and the Go code never overflows them);
`net.IP` values are byte lists (`List Nat`), Go `nil` slices are `none` or
`[]` as in the stdlib functions being modelled; fallible operations return
`Option` or `Except`.  Functions from the Go standard library that the file
calls (`net.ParseCIDR`, `net.IP` methods, `strconv.Atoi`, `strings` and
`bytes` comparisons, `fmt` formatting with no arguments, `sort.Stable`) are
embedded following the stdlib sources of the Go era of this repository.
-/

/-- Three-way comparison of naturals, the primitive under Go's
`strings.Compare` and `bytes.Compare`. -/
def cmpNat (a b : Nat) : Ordering :=
  if a < b then Ordering.lt else if b < a then Ordering.gt else Ordering.eq

/-- Lexicographic comparison of lists (a proper prefix is smaller), as done
byte by byte in Go's `bytes.Compare` and `strings.Compare`. -/
def cmpLex : List Nat → List Nat → Ordering
  | [], [] => Ordering.eq
  | [], _ :: _ => Ordering.lt
  | _ :: _, [] => Ordering.gt
  | a :: as, b :: bs =>
    match cmpNat a b with
    | Ordering.eq => cmpLex as bs
    | o => o

/-- Go `bytes.Compare` on byte slices. -/
def goCompareBytes (a b : List Nat) : Ordering := cmpLex a b

/-- Go `strings.Compare`: lexicographic on the UTF-8 bytes, which orders
strings exactly as lexicographic comparison of their code points. -/
def goCompareStrings (s t : String) : Ordering :=
  cmpLex (s.data.map Char.toNat) (t.data.map Char.toNat)

/-- Go `net`'s `big` constant bounding `dtoi`/`xtoi` results (0xFFFFFF). -/
def bigNum : Nat := 0xFFFFFF

/-- Worker for `dtoi`: accumulated value and count of consumed characters. -/
def dtoiAux : List Char → Nat → Nat → Nat × Nat × Bool
  | [], n, i => if i = 0 then (0, 0, false) else (n, i, true)
  | c :: rest, n, i =>
    if c.isDigit then
      let n2 := n * 10 + (c.toNat - 48)
      if n2 ≥ bigNum then (bigNum, i + 1, false) else dtoiAux rest n2 (i + 1)
    else if i = 0 then (0, 0, false) else (n, i, true)

/-- Go `net.dtoi`: decimal prefix of a string, with the number of characters
consumed and an ok flag. -/
def dtoi (s : List Char) : Nat × Nat × Bool := dtoiAux s 0 0

/-- Value of one hexadecimal digit character, if any. -/
def hexVal (c : Char) : Option Nat :=
  if '0' ≤ c ∧ c ≤ '9' then some (c.toNat - 48)
  else if 'a' ≤ c ∧ c ≤ 'f' then some (c.toNat - 97 + 10)
  else if 'A' ≤ c ∧ c ≤ 'F' then some (c.toNat - 65 + 10)
  else none

/-- Worker for `xtoi`. -/
def xtoiAux : List Char → Nat → Nat → Nat × Nat × Bool
  | [], n, i => if i = 0 then (0, i, false) else (n, i, true)
  | c :: rest, n, i =>
    match hexVal c with
    | none => if i = 0 then (0, i, false) else (n, i, true)
    | some v =>
      let n2 := n * 16 + v
      if n2 ≥ bigNum then (0, i, false) else xtoiAux rest n2 (i + 1)

/-- Go `net.xtoi`: hexadecimal prefix of a string. -/
def xtoi (s : List Char) : Nat × Nat × Bool := xtoiAux s 0 0

/-- The 12-byte start of the 16-byte form of an IPv4 address
(Go `v4InV6Prefix`). -/
def v4InV6Header : List Nat := [0, 0, 0, 0, 0, 0, 0, 0, 0, 0, 255, 255]

/-- Worker for Go `net.parseIPv4`: `k` fields remain, `acc` holds the bytes
parsed so far (so `acc = []` exactly on the first field, where no dot is
expected). -/
def parseIPv4Fields : Nat → List Char → List Nat → Option (List Nat)
  | 0, s, acc => if s = [] then some (v4InV6Header ++ acc) else none
  | k + 1, s, acc =>
    if s = [] then none
    else
      let afterDot : Option (List Char) :=
        if acc = [] then some s
        else
          match s with
          | '.' :: rest => some rest
          | _ => none
      match afterDot with
      | none => none
      | some s2 =>
        match dtoi s2 with
        | (n, c, ok) =>
          if ok ∧ n ≤ 255 then parseIPv4Fields k (s2.drop c) (acc ++ [n])
          else none

/-- Go `net.parseIPv4`, which returns the 16-byte (v4-mapped) form via the
`IPv4` constructor. -/
def parseIPv4 (s : List Char) : Option (List Nat) := parseIPv4Fields 4 s []

/-- The code after Go `parseIPv6`'s main loop: the remaining input must be
exhausted, and a short address is completed by inserting zero bytes at the
ellipsis position (the Go shifting loop). -/
def parseIPv6Finish (s : List Char) (acc : List Nat) (ell : Option Nat) : Option (List Nat) :=
  if s ≠ [] then none
  else if acc.length < 16 then
    match ell with
    | none => none
    | some e => some (acc.take e ++ List.replicate (16 - acc.length) 0 ++ acc.drop e)
  else
    match ell with
    | some _ => none
    | none => some acc

/-- Main loop of Go `net.parseIPv6`: `acc` holds the bytes written so far
(Go's `ip[0:i]`), `ell` the ellipsis byte position if one was seen.  The
`fuel` argument only makes the recursion structural: every iteration of the
Go loop appends two bytes to the (at most 16-byte) address before looping
again, so the loop runs at most 8 times and the fuel of 9 supplied by
`parseIPv6` is never exhausted. -/
def parseIPv6Loop : Nat → List Char → List Nat → Option Nat → Option (List Nat)
  | 0, _, _, _ => none
  | fuel + 1, s, acc, ell =>
    if 16 ≤ acc.length then parseIPv6Finish s acc ell
    else
      match xtoi s with
      | (n, c, ok) =>
        if ¬ ok ∨ n > 0xFFFF then none
        else if c < s.length ∧ s.getD c ' ' = '.' then
          if ell.isNone ∧ acc.length ≠ 12 then none
          else if acc.length + 4 > 16 then none
          else
            match parseIPv4 s with
            | none => none
            | some ip4 => parseIPv6Finish [] (acc ++ ip4.drop 12) ell
        else
          let acc2 := acc ++ [n / 256, n % 256]
          let s2 := s.drop c
          if s2 = [] then parseIPv6Finish [] acc2 ell
          else
            match s2 with
            | ':' :: s3 =>
              if s3 = [] then none
              else
                match s3 with
                | ':' :: s4 =>
                  if ell.isSome then none
                  else if s4 = [] then parseIPv6Finish [] acc2 (some acc2.length)
                  else parseIPv6Loop fuel s4 acc2 (some acc2.length)
                | _ => parseIPv6Loop fuel s3 acc2 ell
            | _ => none

/-- Go `net.parseIPv6` (no zone, as called from `ParseCIDR`): the leading
`::` special case, then the main loop. -/
def parseIPv6 (s : List Char) : Option (List Nat) :=
  match s with
  | ':' :: ':' :: rest =>
    if rest = [] then some (List.replicate 16 0)
    else parseIPv6Loop 9 rest [] (some 0)
  | _ => parseIPv6Loop 9 s [] none

/-- Worker for `CIDRMask`. -/
def cidrMaskAux : Nat → Nat → List Nat
  | _, 0 => []
  | n, l + 1 =>
    if 8 ≤ n then 255 :: cidrMaskAux (n - 8) l
    else (255 - (255 >>> n)) :: cidrMaskAux 0 l

/-- Go `net.CIDRMask`. -/
def CIDRMask (ones bits : Nat) : List Nat :=
  if bits ≠ 32 ∧ bits ≠ 128 then []
  else if ones > bits then []
  else cidrMaskAux ones (bits / 8)

/-- Go `net.IP.To4`. -/
def goTo4 (ip : List Nat) : Option (List Nat) :=
  if ip.length = 4 then some ip
  else if ip.length = 16 ∧ (ip.take 10).all (fun x => x = 0) ∧
      ip.getD 10 0 = 255 ∧ ip.getD 11 0 = 255 then
    some (ip.drop 12)
  else none

/-- Go `net.IP.To16`. -/
def goTo16 (ip : List Nat) : Option (List Nat) :=
  if ip.length = 4 then some (v4InV6Header ++ ip)
  else if ip.length = 16 then some ip
  else none

/-- Go `net.IP.Mask`. -/
def goMask (ip0 m0 : List Nat) : List Nat :=
  let m1 :=
    if m0.length = 16 ∧ ip0.length = 4 ∧ (m0.take 12).all (fun x => x = 255) then m0.drop 12
    else m0
  let ip1 :=
    if m1.length = 4 ∧ ip0.length = 16 ∧ ip0.take 12 = v4InV6Header then ip0.drop 12
    else ip0
  if ip1.length ≠ m1.length then []
  else List.zipWith (fun a b => a &&& b) ip1 m1

/-- An `*net.IPNet` value as produced by `ParseCIDR`. -/
structure IPNet where
  IP : List Nat
  Mask : List Nat
deriving DecidableEq, Repr

/-- Split a string at its first slash (Go `byteIndex(s, '/')` in
`ParseCIDR`). -/
def splitAtSlash : List Char → Option (List Char × List Char)
  | [] => none
  | '/' :: rest => some ([], rest)
  | c :: rest =>
    match splitAtSlash rest with
    | none => none
    | some (a, b) => some (c :: a, b)

/-- Go `net.ParseCIDR`: returns the parsed address and the masked network,
or `none` on a parse error. -/
def ParseCIDR (s : List Char) : Option (List Nat × IPNet) :=
  match splitAtSlash s with
  | none => none
  | some (addr, maskStr) =>
    let ipAndLen : Option (List Nat) × Nat :=
      match parseIPv4 addr with
      | some ip => (some ip, 4)
      | none => (parseIPv6 addr, 16)
    match dtoi maskStr with
    | (n, c, ok) =>
      match ipAndLen.1 with
      | none => none
      | some ip =>
        if ¬ ok ∨ c ≠ maskStr.length ∨ n > 8 * ipAndLen.2 then none
        else
          let m := CIDRMask n (8 * ipAndLen.2)
          some (ip, { IP := goMask ip m, Mask := m })

/-- Go `net.networkNumberAndMask`; the `(nil, nil)` failure result is the
pair of empty lists. -/
def networkNumberAndMask (nw : IPNet) : List Nat × List Nat :=
  let ipOpt : Option (List Nat) :=
    match goTo4 nw.IP with
    | some q => some q
    | none => if nw.IP.length ≠ 16 then none else some nw.IP
  match ipOpt with
  | none => ([], [])
  | some ipn =>
    if nw.Mask.length = 4 then
      if ipn.length ≠ 4 then ([], []) else (ipn, nw.Mask)
    else if nw.Mask.length = 16 then
      if ipn.length = 4 then (ipn, nw.Mask.drop 12) else (ipn, nw.Mask)
    else ([], [])

/-- The byte-wise masked comparison loop of Go `(*IPNet).Contains`,
walking network number, mask and address together. -/
def maskedEqAux : List Nat → List Nat → List Nat → Bool
  | [], [], [] => true
  | n :: ns, m :: ms, p :: ps => (n &&& m == p &&& m) && maskedEqAux ns ms ps
  | _, _, _ => false

/-- Go `(*IPNet).Contains`. -/
def goContains (nw : IPNet) (ip : List Nat) : Bool :=
  match networkNumberAndMask nw with
  | (nn, m) =>
    let ip2 :=
      match goTo4 ip with
      | some x => x
      | none => ip
    if ip2.length ≠ nn.length then false else maskedEqAux nn m ip2

/-- Go `net.IPv6loopback`. -/
def IPv6loopback : List Nat := [0, 0, 0, 0, 0, 0, 0, 0, 0, 0, 0, 0, 0, 0, 0, 1]

/-- Go `net.IP.Equal`. -/
def goIPEqual (ip x : List Nat) : Bool :=
  if ip.length = x.length then ip == x
  else if ip.length = 4 ∧ x.length = 16 then
    (x.take 12 == v4InV6Header) && (ip == x.drop 12)
  else if ip.length = 16 ∧ x.length = 4 then
    (ip.take 12 == v4InV6Header) && (ip.drop 12 == x)
  else false

/-- Go `net.IP.IsLoopback`. -/
def goIsLoopback (ip : List Nat) : Bool :=
  match goTo4 ip with
  | some ip4 => ip4.getD 0 0 == 127
  | none => goIPEqual ip IPv6loopback

/-- Go `uitoa`: decimal rendering of a natural. -/
def uitoa (n : Nat) : String := Nat.repr n

/-- Go `appendHex`: lowercase hexadecimal without leading zeros. -/
def hexStr (n : Nat) : String := String.mk (Nat.toDigits 16 n)

/-- Dotted-decimal rendering of a 4-byte address. -/
def v4Dotted (p : List Nat) : String := String.intercalate "." (p.map uitoa)

/-- 16-bit group `i` of a 16-byte address. -/
def groupAt (p : List Nat) (i : Nat) : Nat :=
  p.getD (2 * i) 0 * 256 + p.getD (2 * i + 1) 0

/-- Worker for `zeroRunLen`, structurally recursive on the number of groups
left before group 8. -/
def zeroRunLenAux (p : List Nat) : Nat → Nat → Nat
  | 0, _ => 0
  | fuel + 1, i => if groupAt p i = 0 then 1 + zeroRunLenAux p fuel (i + 1) else 0

/-- Length of the run of zero groups starting at group `i` (groups past
index 7 do not count). -/
def zeroRunLen (p : List Nat) (i : Nat) : Nat := zeroRunLenAux p (8 - i) i

/-- The zero-group run compressed by `net.IP.String`: the earliest run of
strictly maximal length (Go records a run only when strictly longer than the
best so far), kept only when at least two groups long. -/
def bestZeroRun (p : List Nat) : Option (Nat × Nat) :=
  let best := (List.range 8).foldl
    (fun b i => if zeroRunLen p i > b.2 then (i, zeroRunLen p i) else b) (0, 0)
  if 2 ≤ best.2 then some (best.1, best.1 + best.2) else none

/-- The IPv6 branch of Go `net.IP.String`: hex groups joined by colons, the
best zero run compressed to `::`. -/
def goIPv6String (p : List Nat) : String :=
  let gs := (List.range 8).map (groupAt p)
  match bestZeroRun p with
  | none => String.intercalate ":" (gs.map hexStr)
  | some (e0, e1) =>
    String.intercalate ":" ((gs.take e0).map hexStr) ++ "::" ++
      String.intercalate ":" ((gs.drop e1).map hexStr)

/-- Go `net.IP.String`. -/
def goIPString (p : List Nat) : String :=
  if p.length = 0 then "<nil>"
  else
    match goTo4 p with
    | some q => v4Dotted q
    | none => if p.length ≠ 16 then "?" else goIPv6String p

/-- One `(interface, address)` pair (struct `interfaceIP` of `ips.go`). -/
structure interfaceIP where
  Name : String
  IP : List Nat
deriving DecidableEq, Repr

/-- Method `To16` of `interfaceIP`. -/
def interfaceIP.To16 (iip : interfaceIP) : Option (List Nat) := goTo16 iip.IP

/-- Method `To4` of `interfaceIP`. -/
def interfaceIP.To4 (iip : interfaceIP) : Option (List Nat) := goTo4 iip.IP

/-- Method `IsIPv4` of `interfaceIP` (`To4() != nil`). -/
def interfaceIP.IsIPv4 (iip : interfaceIP) : Bool := iip.To4.isSome

/-- Method `IPString` of `interfaceIP`. -/
def interfaceIP.IPString (iip : interfaceIP) : String :=
  match iip.To4 with
  | some v4 => v4Dotted v4
  | none => goIPString iip.IP

/-- Method `String` of `interfaceIP` (`"name:ipstring"`). -/
def interfaceIP.String (iip : interfaceIP) : String :=
  iip.Name ++ ":" ++ iip.IPString

/-- One parsed specification (struct `interfaceSpec` of `ips.go`). -/
structure interfaceSpec where
  Spec : String
  IPv6 : Bool
  Name : String
  Network : Option IPNet
  Index : Nat
  HasIndex : Bool
deriving DecidableEq, Repr

/-- Method `String` of `interfaceSpec`: the stored raw text. -/
def interfaceSpec.String (spec : interfaceSpec) : String := spec.Spec

/-- Method `Match` of `interfaceSpec`. -/
def interfaceSpec.Match (spec : interfaceSpec) (index : Nat) (iip : interfaceIP) : Bool :=
  if spec.Name = iip.Name ∨ spec.Name = "*" then
    if spec.HasIndex then spec.Index == index
    else if spec.Name = "*" ∧ goIsLoopback iip.IP then false
    else spec.IPv6 != iip.IsIPv4
  else
    match spec.Network with
    | some nw => goContains nw iip.IP
    | none => false

/-- RE2 word character (`\w`, ASCII). -/
def isWordChar (c : Char) : Bool := c.isAlpha || c.isDigit || c = '_'

/-- Model of `ifaceSpec.FindStringSubmatch` for the anchored pattern
`^(\w+)(?:(?:\[(\d+)\])|(?::(inet6?)))?$`: the name is the maximal leading
word-character run (the characters `[` and `:` are not word characters, so
the split is forced), followed by nothing, by a bracketed nonempty digit
run, or by a literal `:inet` or `:inet6`. -/
def ifaceSpecFind (cs : List Char) : Option (String × Option (List Char) × Option String) :=
  if cs.takeWhile isWordChar = [] then none
  else if cs.dropWhile isWordChar = [] then
    some (String.mk (cs.takeWhile isWordChar), none, none)
  else if (cs.dropWhile isWordChar).head? = some '[' then
    if (cs.dropWhile isWordChar).tail.takeWhile Char.isDigit ≠ [] ∧
        (cs.dropWhile isWordChar).tail.dropWhile Char.isDigit = [']'] then
      some (String.mk (cs.takeWhile isWordChar),
        some ((cs.dropWhile isWordChar).tail.takeWhile Char.isDigit), none)
    else none
  else if (cs.dropWhile isWordChar).head? = some ':' then
    if (cs.dropWhile isWordChar).tail = "inet".data then
      some (String.mk (cs.takeWhile isWordChar), none, some "inet")
    else if (cs.dropWhile isWordChar).tail = "inet6".data then
      some (String.mk (cs.takeWhile isWordChar), none, some "inet6")
    else none
  else none

/-- Go `strconv.Atoi` on a nonempty all-digit string: fails exactly on
64-bit overflow. -/
def goAtoi (ds : List Char) : Option Nat :=
  let n := ds.foldl (fun acc c => acc * 10 + (c.toNat - 48)) 0
  if n ≤ 9223372036854775807 then some n else none

/-- `parseInterfaceSpec` of `ips.go`. -/
def parseInterfaceSpec (spec : String) : Except String interfaceSpec :=
  if spec = "inet" then
    Except.ok { Spec := "", IPv6 := false, Name := "*", Network := none, Index := 0, HasIndex := false }
  else if spec = "inet6" then
    Except.ok { Spec := "", IPv6 := true, Name := "*", Network := none, Index := 0, HasIndex := false }
  else
    match ifaceSpecFind spec.data with
    | some (name, idx, ver) =>
      match idx with
      | some ds =>
        match goAtoi ds with
        | none => Except.error ("Unable to parse index " ++ String.mk ds ++ " in " ++ spec)
        | some i =>
          Except.ok { Spec := spec, IPv6 := false, Name := name, Network := none, Index := i, HasIndex := true }
      | none =>
        match ver with
        | some v =>
          if v = "inet" then
            Except.ok { Spec := spec, IPv6 := false, Name := name, Network := none, Index := 0, HasIndex := false }
          else
            Except.ok { Spec := spec, IPv6 := true, Name := name, Network := none, Index := 0, HasIndex := false }
        | none =>
          Except.ok { Spec := spec, IPv6 := false, Name := name, Network := none, Index := 0, HasIndex := false }
    | none =>
      match ParseCIDR spec.data with
      | some (_, nw) =>
        Except.ok { Spec := spec, IPv6 := false, Name := "", Network := some nw, Index := 0, HasIndex := false }
      | none => Except.error ("Unable to parse interface spec: " ++ spec)

/-- Go `fmt` flag characters recognized after a percent sign. -/
def isFmtFlag (c : Char) : Bool := c = '#' || c = '0' || c = '+' || c = '-' || c = ' '

/-- Go fmt `argNumber`/`parseArgNumber` specialized to an empty argument
list: with no opening bracket, the state passes through with `afterIndex`
reset to false; a bracket takes `[n]` as an explicit one-indexed argument
number.  Since there are no arguments, every index is out of range, so any
bracket clears `goodArgNum`; `afterIndex` is set exactly when the bracket is
well formed (`[` then one or more digits then `]` — Go's `parsenum` of this
era has no overflow cutoff, so only the digit shape matters here).  A
malformed bracket consumes only the `[` unless a closing bracket exists
(then everything up to it), exactly as `parseArgNumber` reports the bytes
to consume.  Returns `(goodArgNum, afterIndex, rest of the format)`. -/
def goFmtArgNumber (good : Bool) (s : List Char) : Bool × Bool × List Char :=
  match s with
  | '[' :: t =>
    if t.length < 2 then (false, false, t)
    else
      match t.findIdx? (fun c => c == ']') with
      | none => (false, false, t)
      | some k => (false, decide (1 ≤ k) && (t.take k).all Char.isDigit, t.drop (k + 1))
  | _ => (good, false, s)

/-- Verb dispatch at the end of one Go fmt directive with no arguments: a
final argument index is read unless one was just read, an exhausted format
renders `%!(NOVERB)`, a percent verb emits a literal percent sign, a bad
argument number renders `%!v(BADINDEX)`, and any other verb has no argument
left and renders `%!v(MISSING)`.  Returns the emitted text and the
remaining format. -/
def goFmtFinish (out : List Char) (good after : Bool) (s : List Char) : List Char × List Char :=
  match (if after then (good, after, s) else goFmtArgNumber good s) with
  | (good2, _, s2) =>
    match s2 with
    | [] => (out ++ "%!(NOVERB)".data, [])
    | c :: rest =>
      if c = '%' then (out ++ ['%'], rest)
      else if good2 then (out ++ '%' :: '!' :: c :: "(MISSING)".data, rest)
      else (out ++ '%' :: '!' :: c :: "(BADINDEX)".data, rest)

/-- Precision handling of one Go fmt directive with no arguments (entered
only when a character follows the dot, as `doPrintf` requires `i+1 < end`):
an argument index may precede the precision, `.*` takes the precision from
a (missing) argument and emits `%!(BADPREC)`, and literal digits are
consumed silently. -/
def goFmtAfterWidth (out : List Char) (good after : Bool) (s : List Char) : List Char × List Char :=
  match s with
  | '.' :: c :: rest =>
    match goFmtArgNumber (if after then false else good) (c :: rest) with
    | (good2, after2, s2) =>
      match s2 with
      | '*' :: s2t => goFmtFinish (out ++ "%!(BADPREC)".data) good2 false s2t
      | _ => goFmtFinish out good2 after2 (s2.dropWhile Char.isDigit)
  | _ => goFmtFinish out good after s

/-- One `%` directive of Go fmt's `doPrintf` with no arguments, given the
format after the percent sign: flags are consumed, an explicit argument
index may follow, `*` takes the width from a (missing) argument and emits
`%!(BADWIDTH)`, literal width digits are consumed (a width after an index
clears `goodArgNum`), then precision and the verb are handled.  Returns the
emitted text and the remaining format. -/
def goFmtOneVerb (s : List Char) : List Char × List Char :=
  match goFmtArgNumber true (s.dropWhile isFmtFlag) with
  | (good1, after1, s2) =>
    match s2 with
    | '*' :: s2t => goFmtAfterWidth "%!(BADWIDTH)".data good1 false s2t
    | _ =>
      let widPresent :=
        match s2 with
        | c :: _ => c.isDigit
        | [] => false
      goFmtAfterWidth [] (good1 && !(after1 && widPresent)) after1 (s2.dropWhile Char.isDigit)

/-- Driver of Go `fmt` formatting against an empty argument list: literal
text is copied and each percent sign starts one directive.  The fuel only
makes the recursion structural: a directive always consumes at least its
percent sign, so the remaining format shrinks at every step and the fuel
`s.length` supplied by `goFmtNoArgs` is never exhausted. -/
def goFmtAux : Nat → List Char → List Char
  | 0, _ => []
  | fuel + 1, s =>
    match s with
    | [] => []
    | c :: rest =>
      if c = '%' then
        match goFmtOneVerb rest with
        | (chunk, remainder) => chunk ++ goFmtAux fuel remainder
      else c :: goFmtAux fuel rest

/-- Go `fmt` formatting of a format string against an empty argument list,
as `fmt.Errorf(strings.Join(errs, "\n"))` does. -/
def goFmtNoArgs (s : List Char) : List Char := goFmtAux s.length s

/-- `fmt.Errorf` applied to a message with no argument list. -/
def goErrorfNoArgs (s : String) : String := String.mk (goFmtNoArgs s.data)

/-- Go `strings.Join`: items interleaved with the separator. -/
def goStringsJoin (sep : String) : List String → String
  | [] => ""
  | [a] => a
  | a :: rest => a ++ sep ++ goStringsJoin sep rest

/-- Accumulation loop of `parseInterfaceSpecs`: parsed rules and error
messages, each in input order. -/
def parseInterfaceSpecsAux : List String → List interfaceSpec × List String
  | [] => ([], [])
  | iface :: rest =>
    let (ss, es) := parseInterfaceSpecsAux rest
    match parseInterfaceSpec iface with
    | Except.error e => (ss, e :: es)
    | Except.ok s => (s :: ss, es)

/-- `parseInterfaceSpecs` of `ips.go`. -/
def parseInterfaceSpecs (interfaces : List String) : List interfaceSpec × Option String :=
  match parseInterfaceSpecsAux interfaces with
  | (specs, errs) =>
    if errs = [] then (specs, none)
    else (specs, some (goErrorfNoArgs (goStringsJoin "\n" errs)))

/-- Inner loop of `findIPWithSpecs`: scan the address list for one rule,
carrying the positional counter and the previously seen interface name
(initially `0` and `""`). -/
def scanIPs (spec : interfaceSpec) : Nat → String → List interfaceIP → Option String
  | _, _, [] => none
  | index, iface, iip :: rest =>
    let st := if iface ≠ iip.Name then (0, iip.Name) else (index + 1, iface)
    if spec.Match st.1 iip then some iip.IPString
    else scanIPs spec st.1 st.2 rest

/-- Outer loop of `findIPWithSpecs`: first rule whose scan hits. -/
def findFirstMatch : List interfaceSpec → List interfaceIP → Option String
  | [], _ => none
  | spec :: rest, ips =>
    match scanIPs spec 0 "" ips with
    | some s => some s
    | none => findFirstMatch rest ips

/-- `%s` rendering of a rule slice (Go prints a slice as the bracketed,
space-separated `String()` forms of its elements). -/
def specsListString (specs : List interfaceSpec) : String :=
  "[" ++ String.intercalate " " (specs.map interfaceSpec.String) ++ "]"

/-- `%s` rendering of an address slice. -/
def iipsListString (ips : List interfaceIP) : String :=
  "[" ++ String.intercalate " " (ips.map interfaceIP.String) ++ "]"

/-- The no-match error message of `findIPWithSpecs`. -/
def noMatchMessage (specs : List interfaceSpec) (ips : List interfaceIP) : String :=
  "None of the interface specifications were able to match\nSpecifications: " ++
    specsListString specs ++ "\nInterfaces IPs: " ++ iipsListString ips

/-- `findIPWithSpecs` of `ips.go`; the Go `(string, error)` pair is a
`String × Option String`. -/
def findIPWithSpecs (specs : List interfaceSpec) (interfaceIPs : List interfaceIP) :
    String × Option String :=
  match findFirstMatch specs interfaceIPs with
  | some s => (s, none)
  | none => ("", some (noMatchMessage specs interfaceIPs))

/-- The element comparison of `ByInterfaceThenIP.Less`: interface name via
`strings.Compare`, then the 16-byte forms via `bytes.Compare` (a `nil`
`To16` compares as the empty slice). -/
def ByInterfaceThenIP.Less (a b : interfaceIP) : Bool :=
  match goCompareStrings a.Name b.Name with
  | Ordering.eq => goCompareBytes (a.To16.getD []) (b.To16.getD []) == Ordering.lt
  | o => o == Ordering.lt

/-- The non-strict order a stable sort by `Less` establishes: `a` may stay
before `b` exactly when `b` is not strictly less than `a`. -/
def iipLE (a b : interfaceIP) : Bool := ! ByInterfaceThenIP.Less b a

/-- `sort.Stable(ByInterfaceThenIP(ifaceIPs))`: the stable sort by `Less`,
embedded as a merge sort (stable, and sorted exactly when no adjacent pair
is inverted under `Less`). -/
def sortByInterfaceThenIP (l : List interfaceIP) : List interfaceIP := l.mergeSort iipLE

/-- One OS-reported network interface as consumed by `getinterfaceIPs`: its
name and the result of its `Addrs()` call, each address rendered in its
CIDR string form. -/
structure NetInterface where
  Name : String
  Addrs : Except String (List String)

/-- Go `strings.Split` with a single-space separator, on character lists:
empty segments between consecutive separators are kept, and the empty
string yields one empty segment. -/
def goSplitSpace : List Char → List (List Char)
  | [] => [[]]
  | c :: rest =>
    match goSplitSpace rest with
    | [] => [[c]]
    | h :: t => if c = ' ' then [] :: h :: t else (c :: h) :: t

/-- `strings.Split(addr, " ")` on strings. -/
def goSplitOnSpace (s : String) : List String := (goSplitSpace s.data).map String.mk

/-- Per-segment loop of `getinterfaceIPs`: parse each whitespace-split
segment as a CIDR, keeping the address and recording `ParseCIDR` failures
(message `invalid CIDR address: seg`). -/
def parseAddrSegs (name : String) : List String → List interfaceIP × List String
  | [] => ([], [])
  | seg :: rest =>
    match parseAddrSegs name rest with
    | (is, es) =>
      match ParseCIDR seg.data with
      | some (ip, _) => ({ Name := name, IP := ip } :: is, es)
      | none => (is, ("invalid CIDR address: " ++ seg) :: es)

/-- Per-interface loop of `getinterfaceIPs`: an `Addrs()` failure is
recorded and skips the interface; otherwise every address string is split
on spaces and each segment parsed. -/
def gatherInterfaceIPs : List NetInterface → List interfaceIP × List String
  | [] => ([], [])
  | intf :: rest =>
    match gatherInterfaceIPs rest with
    | (is2, es2) =>
      match intf.Addrs with
      | Except.error e => (is2, e :: es2)
      | Except.ok addrs =>
        match parseAddrSegs intf.Name (addrs.flatMap goSplitOnSpace) with
        | (is1, es1) => (is1 ++ is2, es1 ++ es2)

/-- `getinterfaceIPs` of `ips.go`: gather, stable-sort, and either return
the list alone or together with the newline-joined accumulated errors. -/
def getinterfaceIPs (interfaces : List NetInterface) : List interfaceIP × Option String :=
  match gatherInterfaceIPs interfaces with
  | (ips, errs) =>
    let sorted := sortByInterfaceThenIP ips
    if errs = [] then (sorted, none)
    else (sorted, some (goErrorfNoArgs (goStringsJoin "\n" errs)))

/-- `GetIP` of `ips.go`; the OS interface query (`net.Interfaces()`) is the
explicit `interfacesResult` input. -/
def GetIP (specList : List String) (interfacesResult : Except String (List NetInterface)) :
    String × Option String :=
  let specList2 := if specList.isEmpty then ["eth0:inet"] else specList
  match parseInterfaceSpecs specList2 with
  | (_, some err) => ("", some err)
  | (specs, none) =>
    match interfacesResult with
    | Except.error e => ("", some e)
    | Except.ok interfaces =>
      match getinterfaceIPs interfaces with
      | (interfaceIPs, some e) =>
        if interfaceIPs.length < 1 then ("", some e)
        else findIPWithSpecs specs interfaceIPs
      | (interfaceIPs, none) => findIPWithSpecs specs interfaceIPs

/-- The positional counters `scanIPs` hands to `Match`, made explicit: each
address paired with the counter value current when it is tested. -/
def annotateFrom : Nat → String → List interfaceIP → List (Nat × interfaceIP)
  | _, _, [] => []
  | index, iface, iip :: rest =>
    let st := if iface ≠ iip.Name then (0, iip.Name) else (index + 1, iface)
    (st.1, iip) :: annotateFrom st.1 st.2 rest

/-- The counters of a full scan (initial state `0`, `""`). -/
def annotateIndices (ips : List interfaceIP) : List (Nat × interfaceIP) :=
  annotateFrom 0 "" ips


/-- The rules of the well-formed items of a batch, in order (what the
accumulation loop of `parseInterfaceSpecs` keeps). -/
def specOks (interfaces : List String) : List interfaceSpec :=
  interfaces.filterMap (fun s => (parseInterfaceSpec s).toOption)

/-- The failure messages of the malformed items of a batch, in order. -/
def specErrs (interfaces : List String) : List String :=
  interfaces.filterMap (fun s =>
    match parseInterfaceSpec s with
    | Except.error e => some e
    | Except.ok _ => none)

/-! ### Ordering facts about the Go comparison primitives -/

theorem charToNat_inj {c d : Char} (h : c.toNat = d.toNat) : c = d := by
  have hv : c.val = d.val := by
    have h2 := h
    unfold Char.toNat at h2
    cases hc : c.val
    cases hd : d.val
    simp_all [UInt32.toNat]
    exact congrArg UInt32.mk (BitVec.eq_of_toNat_eq h2)
  exact Char.ext hv

theorem cmpNat_lt_iff (a b : Nat) : cmpNat a b = Ordering.lt ↔ a < b := by
  unfold cmpNat
  rcases Nat.lt_trichotomy a b with h | h | h
  · rw [if_pos h]; simp [h]
  · subst h; rw [if_neg (lt_irrefl a), if_neg (lt_irrefl a)]; simp
  · rw [if_neg (by omega), if_pos h]; simp; omega

theorem cmpNat_gt_iff (a b : Nat) : cmpNat a b = Ordering.gt ↔ b < a := by
  unfold cmpNat
  rcases Nat.lt_trichotomy a b with h | h | h
  · rw [if_pos h]; simp; omega
  · subst h; rw [if_neg (lt_irrefl a), if_neg (lt_irrefl a)]; simp
  · rw [if_neg (by omega), if_pos h]; simp [h]

theorem cmpNat_eq_iff (a b : Nat) : cmpNat a b = Ordering.eq ↔ a = b := by
  unfold cmpNat
  rcases Nat.lt_trichotomy a b with h | h | h
  · rw [if_pos h]; simp; omega
  · subst h; rw [if_neg (lt_irrefl a), if_neg (lt_irrefl a)]; simp
  · rw [if_neg (by omega), if_pos h]; simp; omega

theorem cmpLex_eq_iff : ∀ a b : List Nat, cmpLex a b = Ordering.eq ↔ a = b
  | [], [] => by simp [cmpLex]
  | [], _ :: _ => by simp [cmpLex]
  | _ :: _, [] => by simp [cmpLex]
  | a :: as, b :: bs => by
    simp only [cmpLex]
    rcases Nat.lt_trichotomy a b with h | h | h
    · have h1 : cmpNat a b = Ordering.lt := (cmpNat_lt_iff a b).2 h
      simp [h1]
      omega
    · subst h
      have h1 : cmpNat a a = Ordering.eq := (cmpNat_eq_iff a a).2 rfl
      simp [h1, cmpLex_eq_iff as bs]
    · have h1 : cmpNat a b = Ordering.gt := (cmpNat_gt_iff a b).2 h
      simp [h1]
      omega

theorem cmpLex_gt_iff_lt : ∀ a b : List Nat, cmpLex a b = Ordering.gt ↔ cmpLex b a = Ordering.lt
  | [], [] => by simp [cmpLex]
  | [], _ :: _ => by simp [cmpLex]
  | _ :: _, [] => by simp [cmpLex]
  | a :: as, b :: bs => by
    simp only [cmpLex]
    rcases Nat.lt_trichotomy a b with h | h | h
    · have h1 : cmpNat a b = Ordering.lt := (cmpNat_lt_iff a b).2 h
      have h2 : cmpNat b a = Ordering.gt := (cmpNat_gt_iff b a).2 h
      simp [h1, h2]
    · subst h
      have h1 : cmpNat a a = Ordering.eq := (cmpNat_eq_iff a a).2 rfl
      simp [h1]
      exact cmpLex_gt_iff_lt as bs
    · have h1 : cmpNat a b = Ordering.gt := (cmpNat_gt_iff a b).2 h
      have h2 : cmpNat b a = Ordering.lt := (cmpNat_lt_iff b a).2 h
      simp [h1, h2]

theorem cmpLex_lt_trans : ∀ {a b c : List Nat}, cmpLex a b = Ordering.lt →
    cmpLex b c = Ordering.lt → cmpLex a c = Ordering.lt
  | [], [], _, h1, _ => by cases h1
  | [], _ :: _, [], _, h2 => by cases h2
  | [], _ :: _, _ :: _, _, _ => by simp [cmpLex]
  | _ :: _, [], _, h1, _ => by cases h1
  | _ :: _, _ :: _, [], _, h2 => by cases h2
  | a :: as, b :: bs, c :: cs, h1, h2 => by
    simp only [cmpLex] at h1 h2 ⊢
    rcases Nat.lt_trichotomy a b with g | g | g
    · rcases Nat.lt_trichotomy b c with f | f | f
      · have : cmpNat a c = Ordering.lt := (cmpNat_lt_iff a c).2 (lt_trans g f)
        simp [this]
      · subst f
        have : cmpNat a b = Ordering.lt := (cmpNat_lt_iff a b).2 g
        simp [this]
      · have hf : cmpNat b c = Ordering.gt := (cmpNat_gt_iff b c).2 f
        rw [hf] at h2
        cases h2
    · subst g
      rcases Nat.lt_trichotomy a c with f | f | f
      · have : cmpNat a c = Ordering.lt := (cmpNat_lt_iff a c).2 f
        simp [this]
      · subst f
        have heq : cmpNat a a = Ordering.eq := (cmpNat_eq_iff a a).2 rfl
        rw [heq] at h1 h2
        simp [heq]
        exact cmpLex_lt_trans h1 h2
      · have hf : cmpNat a c = Ordering.gt := (cmpNat_gt_iff a c).2 f
        rw [hf] at h2
        cases h2
    · have hg : cmpNat a b = Ordering.gt := (cmpNat_gt_iff a b).2 g
      rw [hg] at h1
      cases h1

theorem goCompareStrings_eq_iff (s t : String) :
    goCompareStrings s t = Ordering.eq ↔ s = t := by
  unfold goCompareStrings
  rw [cmpLex_eq_iff]
  constructor
  · intro h
    apply String.ext
    have hinj : Function.Injective Char.toNat := fun _ _ hx => charToNat_inj hx
    exact (List.map_injective_iff.2 hinj) h
  · intro h; rw [h]

theorem goCompareStrings_gt_iff_lt (s t : String) :
    goCompareStrings s t = Ordering.gt ↔ goCompareStrings t s = Ordering.lt := by
  unfold goCompareStrings
  exact cmpLex_gt_iff_lt _ _

theorem goCompareStrings_lt_trans {s t u : String}
    (h1 : goCompareStrings s t = Ordering.lt) (h2 : goCompareStrings t u = Ordering.lt) :
    goCompareStrings s u = Ordering.lt := by
  unfold goCompareStrings at *
  exact cmpLex_lt_trans h1 h2

theorem goCompareStrings_empty_left (s : String) :
    goCompareStrings "" s ≠ Ordering.gt := by
  unfold goCompareStrings
  cases h : s.data <;> simp [cmpLex, h]

theorem cmpLex_le_trans {a b c : List Nat} (h1 : cmpLex a b ≠ Ordering.gt)
    (h2 : cmpLex b c ≠ Ordering.gt) : cmpLex a c ≠ Ordering.gt := by
  intro hac
  have hca : cmpLex c a = Ordering.lt := (cmpLex_gt_iff_lt a c).1 hac
  cases h1' : cmpLex a b with
  | gt => exact h1 h1'
  | eq =>
    have hab : a = b := (cmpLex_eq_iff a b).1 h1'
    subst hab
    exact h2 hac
  | lt =>
    cases h2' : cmpLex b c with
    | gt => exact h2 h2'
    | eq =>
      have hbc : b = c := (cmpLex_eq_iff b c).1 h2'
      subst hbc
      have hlt := cmpLex_lt_trans h1' hca
      have heq : cmpLex a a = Ordering.eq := (cmpLex_eq_iff a a).2 rfl
      rw [heq] at hlt
      cases hlt
    | lt =>
      have hlt := cmpLex_lt_trans (cmpLex_lt_trans h1' h2') hca
      have heq : cmpLex a a = Ordering.eq := (cmpLex_eq_iff a a).2 rfl
      rw [heq] at hlt
      cases hlt

theorem goCompareStrings_le_trans {s t u : String} (h1 : goCompareStrings s t ≠ Ordering.gt)
    (h2 : goCompareStrings t u ≠ Ordering.gt) : goCompareStrings s u ≠ Ordering.gt := by
  unfold goCompareStrings at *
  exact cmpLex_le_trans h1 h2

theorem goCompareStrings_le_antisymm {s t : String} (h1 : goCompareStrings s t ≠ Ordering.gt)
    (h2 : goCompareStrings t s ≠ Ordering.gt) : s = t := by
  cases h : goCompareStrings s t with
  | eq => exact (goCompareStrings_eq_iff s t).1 h
  | gt => exact absurd h h1
  | lt => exact absurd ((goCompareStrings_gt_iff_lt t s).2 h) h2

/-- The non-strict order `iipLE` spelled out: name strictly first, equal
names tie-broken by the 16-byte form. -/
theorem iipLE_iff (a b : interfaceIP) :
    iipLE a b = true ↔ (goCompareStrings a.Name b.Name = Ordering.lt ∨
      (a.Name = b.Name ∧ goCompareBytes (a.To16.getD []) (b.To16.getD []) ≠ Ordering.gt)) := by
  unfold iipLE ByInterfaceThenIP.Less
  cases h : goCompareStrings b.Name a.Name with
  | lt =>
    have hg : goCompareStrings a.Name b.Name = Ordering.gt :=
      (goCompareStrings_gt_iff_lt a.Name b.Name).2 h
    have hne : a.Name ≠ b.Name := by
      intro heq
      rw [heq, (goCompareStrings_eq_iff b.Name b.Name).2 rfl] at hg
      cases hg
    simp [hg, hne]
    decide
  | eq =>
    have heq : b.Name = a.Name := (goCompareStrings_eq_iff _ _).1 h
    have heq2 : goCompareStrings a.Name b.Name = Ordering.eq := by
      rw [heq]
      exact (goCompareStrings_eq_iff _ _).2 rfl
    have hgl : goCompareBytes (a.To16.getD []) (b.To16.getD []) = Ordering.gt ↔
        goCompareBytes (b.To16.getD []) (a.To16.getD []) = Ordering.lt :=
      cmpLex_gt_iff_lt _ _
    simp only [heq2, heq.symm]
    cases hc : goCompareBytes (b.To16.getD []) (a.To16.getD []) with
    | lt => simp_all; decide
    | eq => simp_all; decide
    | gt => simp_all; decide
  | gt =>
    have hl : goCompareStrings a.Name b.Name = Ordering.lt :=
      (goCompareStrings_gt_iff_lt b.Name a.Name).1 h
    simp [hl]
    decide

theorem iipLE_total (a b : interfaceIP) : (iipLE a b || iipLE b a) = true := by
  have key : iipLE a b = true ∨ iipLE b a = true := by
    cases hn : goCompareStrings a.Name b.Name with
    | lt =>
      left
      rw [iipLE_iff]
      exact Or.inl hn
    | gt =>
      right
      rw [iipLE_iff]
      exact Or.inl ((goCompareStrings_gt_iff_lt a.Name b.Name).1 hn)
    | eq =>
      have heq : a.Name = b.Name := (goCompareStrings_eq_iff _ _).1 hn
      cases hb : goCompareBytes (a.To16.getD []) (b.To16.getD []) with
      | lt =>
        left
        rw [iipLE_iff]
        right
        exact ⟨heq, by rw [hb]; intro hx; cases hx⟩
      | eq =>
        left
        rw [iipLE_iff]
        right
        exact ⟨heq, by rw [hb]; intro hx; cases hx⟩
      | gt =>
        right
        rw [iipLE_iff]
        right
        refine ⟨heq.symm, ?_⟩
        have hba : goCompareBytes (b.To16.getD []) (a.To16.getD []) = Ordering.lt :=
          (cmpLex_gt_iff_lt _ _).1 hb
        rw [hba]
        intro hx
        cases hx
  rcases key with h | h
  · rw [h, Bool.true_or]
  · rw [h, Bool.or_true]

theorem iipLE_trans (a b c : interfaceIP) (h1 : iipLE a b = true) (h2 : iipLE b c = true) :
    iipLE a c = true := by
  rw [iipLE_iff] at *
  rcases h1 with h1 | ⟨h1n, h1b⟩
  · rcases h2 with h2 | ⟨h2n, _⟩
    · exact Or.inl (goCompareStrings_lt_trans h1 h2)
    · exact Or.inl (h2n ▸ h1)
  · rcases h2 with h2 | ⟨h2n, h2b⟩
    · exact Or.inl (h1n ▸ h2)
    · exact Or.inr ⟨h1n.trans h2n, cmpLex_le_trans h1b h2b⟩

/-- A string rebuilt from its character list is itself. -/
theorem stringMkData (s : String) : String.mk s.data = s := by
  cases s
  rfl

theorem goFmtAux_id : ∀ (fuel : Nat) (s : List Char), s.length ≤ fuel →
    (∀ c ∈ s, c ≠ '%') → goFmtAux fuel s = s
  | 0, [], _, _ => rfl
  | 0, _ :: _, h, _ => absurd h (by simp)
  | _ + 1, [], _, _ => rfl
  | fuel + 1, c :: rest, h, hnp => by
    have hc : c ≠ '%' := hnp c (List.mem_cons_self c rest)
    simp only [goFmtAux, hc, if_false]
    rw [goFmtAux_id fuel rest (by simpa using h)
      (fun x hx => hnp x (List.mem_cons_of_mem c hx))]

theorem goFmtNoArgs_id (s : List Char) (h : ∀ c ∈ s, c ≠ '%') : goFmtNoArgs s = s :=
  goFmtAux_id s.length s (Nat.le_refl _) h

theorem goErrorfNoArgs_id (s : String) (h : ∀ c ∈ s.data, c ≠ '%') :
    goErrorfNoArgs s = s := by
  unfold goErrorfNoArgs
  rw [goFmtNoArgs_id s.data h, stringMkData]

/-! ### Structure of the parser's results -/

theorem ifaceSpecFind_some_name {cs : List Char} {name : String} {idx : Option (List Char)}
    {ver : Option String} (h : ifaceSpecFind cs = some (name, idx, ver)) :
    name.data ≠ [] ∧ ∀ c ∈ name.data, isWordChar c = true := by
  have hmem : ∀ c ∈ cs.takeWhile isWordChar, isWordChar c = true :=
    fun c hc => List.mem_takeWhile_imp hc
  unfold ifaceSpecFind at h
  by_cases hn : cs.takeWhile isWordChar = []
  · rw [if_pos hn] at h
    cases h
  · rw [if_neg hn] at h
    have conclude : ∀ {x : String × Option (List Char) × Option String},
        some x = some (name, idx, ver) → x.1 = String.mk (cs.takeWhile isWordChar) →
        name.data ≠ [] ∧ ∀ c ∈ name.data, isWordChar c = true := by
      intro x hx h1
      have h3 : x.1 = name := congrArg Prod.fst (Option.some.inj hx)
      have h2 : name = String.mk (cs.takeWhile isWordChar) := by
        rw [← h3]
        exact h1
      subst h2
      exact ⟨hn, hmem⟩
    split at h
    · exact conclude h rfl
    · split at h
      · split at h
        · exact conclude h rfl
        · cases h
      · split at h
        · split at h
          · exact conclude h rfl
          · split at h
            · exact conclude h rfl
            · cases h
        · cases h

theorem ifaceSpecFind_all_word {s : String} (hne : s.data ≠ [])
    (hw : ∀ c ∈ s.data, isWordChar c = true) :
    ifaceSpecFind s.data = some (s, none, none) := by
  have ht : s.data.takeWhile isWordChar = s.data := List.takeWhile_eq_self_iff.2 hw
  have hd : s.data.dropWhile isWordChar = [] := List.dropWhile_eq_nil_iff.2 hw
  unfold ifaceSpecFind
  rw [ht, hd, if_neg hne, if_pos rfl, stringMkData]

/-- Full case analysis of a successful `parseInterfaceSpec`: the two bare
literals, the three regex-shaped families, or a CIDR. -/
theorem parseInterfaceSpec_ok_inv {s : String} {sp : interfaceSpec}
    (h : parseInterfaceSpec s = Except.ok sp) :
    (s = "inet" ∧ sp = ⟨"", false, "*", none, 0, false⟩) ∨
    (s = "inet6" ∧ sp = ⟨"", true, "*", none, 0, false⟩) ∨
    (s ≠ "inet" ∧ s ≠ "inet6" ∧ ∃ name idx ver,
      ifaceSpecFind s.data = some (name, idx, ver) ∧
      ((∃ ds i, idx = some ds ∧ goAtoi ds = some i ∧ sp = ⟨s, false, name, none, i, true⟩) ∨
       (idx = none ∧ ver = some "inet" ∧ sp = ⟨s, false, name, none, 0, false⟩) ∨
       (idx = none ∧ (∃ v, ver = some v ∧ v ≠ "inet") ∧ sp = ⟨s, true, name, none, 0, false⟩) ∨
       (idx = none ∧ ver = none ∧ sp = ⟨s, false, name, none, 0, false⟩))) ∨
    (s ≠ "inet" ∧ s ≠ "inet6" ∧ ifaceSpecFind s.data = none ∧
      ∃ ip nw, ParseCIDR s.data = some (ip, nw) ∧ sp = ⟨s, false, "", some nw, 0, false⟩) := by
  unfold parseInterfaceSpec at h
  by_cases h1 : s = "inet"
  · rw [if_pos h1] at h
    exact Or.inl ⟨h1, (Except.ok.inj h).symm⟩
  · rw [if_neg h1] at h
    by_cases h2 : s = "inet6"
    · rw [if_pos h2] at h
      exact Or.inr (Or.inl ⟨h2, (Except.ok.inj h).symm⟩)
    · rw [if_neg h2] at h
      cases hf : ifaceSpecFind s.data with
      | some triple =>
        obtain ⟨name, idx, ver⟩ := triple
        rw [hf] at h
        right; right; left
        refine ⟨h1, h2, name, idx, ver, rfl, ?_⟩
        cases idx with
        | some ds =>
          dsimp only at h
          cases ha : goAtoi ds with
          | none =>
            rw [ha] at h
            cases h
          | some i =>
            rw [ha] at h
            exact Or.inl ⟨ds, i, rfl, ha, (Except.ok.inj h).symm⟩
        | none =>
          dsimp only at h
          cases ver with
          | some v =>
            dsimp only at h
            by_cases hv : v = "inet"
            · rw [if_pos hv] at h
              exact Or.inr (Or.inl ⟨rfl, by rw [hv], (Except.ok.inj h).symm⟩)
            · rw [if_neg hv] at h
              exact Or.inr (Or.inr (Or.inl ⟨rfl, ⟨v, rfl, hv⟩, (Except.ok.inj h).symm⟩))
          | none =>
            dsimp only at h
            exact Or.inr (Or.inr (Or.inr ⟨rfl, rfl, (Except.ok.inj h).symm⟩))
      | none =>
        rw [hf] at h
        cases hc : ParseCIDR s.data with
        | none =>
          rw [hc] at h
          cases h
        | some p =>
          obtain ⟨ip, nw⟩ := p
          rw [hc] at h
          exact Or.inr (Or.inr (Or.inr ⟨h1, h2, rfl, ip, nw, rfl, (Except.ok.inj h).symm⟩))

theorem parseInterfaceSpecsAux_eq : ∀ interfaces : List String,
    parseInterfaceSpecsAux interfaces = (specOks interfaces, specErrs interfaces)
  | [] => rfl
  | iface :: rest => by
    simp only [parseInterfaceSpecsAux, parseInterfaceSpecsAux_eq rest]
    cases hp : parseInterfaceSpec iface with
    | error e => simp [specOks, specErrs, List.filterMap_cons, hp, Except.toOption]
    | ok sp => simp [specOks, specErrs, List.filterMap_cons, hp, Except.toOption]

theorem parseInterfaceSpecs_eq (interfaces : List String) :
    parseInterfaceSpecs interfaces =
      (specOks interfaces,
        if specErrs interfaces = [] then none
        else some (goErrorfNoArgs (goStringsJoin "\n" (specErrs interfaces)))) := by
  unfold parseInterfaceSpecs
  rw [parseInterfaceSpecsAux_eq]
  by_cases he : specErrs interfaces = [] <;> simp [he]

theorem scanIPs_eq_find (spec : interfaceSpec) :
    ∀ (ips : List interfaceIP) (index : Nat) (iface : String),
      scanIPs spec index iface ips =
        ((annotateFrom index iface ips).find? (fun p => spec.Match p.1 p.2)).map
          (fun p => p.2.IPString)
  | [], _, _ => rfl
  | iip :: rest, index, iface => by
    by_cases hif : iface = iip.Name
    · simp only [scanIPs, annotateFrom, hif, ne_eq, not_true_eq_false, if_false, List.find?_cons]
      cases hm : spec.Match (index + 1) iip with
      | true => simp [hm]
      | false => simp [hm, scanIPs_eq_find spec rest]
    · simp only [scanIPs, annotateFrom, hif, ne_eq, not_false_eq_true, if_true, List.find?_cons]
      cases hm : spec.Match 0 iip with
      | true => simp [hm]
      | false => simp [hm, scanIPs_eq_find spec rest]

theorem findFirstMatch_priority : ∀ (specs : List interfaceSpec) (ips : List interfaceIP)
    (i : Nat) (hi : i < specs.length) (s : String),
    scanIPs (specs.get ⟨i, hi⟩) 0 "" ips = some s →
    (∀ j (hj : j < i), scanIPs (specs.get ⟨j, Nat.lt_trans hj hi⟩) 0 "" ips = none) →
    findFirstMatch specs ips = some s
  | [], _, i, hi, _, _, _ => absurd hi (by simp)
  | spec :: rest, ips, 0, _, s, hscan, _ => by
    unfold findFirstMatch
    rw [show scanIPs spec 0 "" ips = some s from hscan]
  | spec :: rest, ips, i + 1, hi, s, hscan, hnone => by
    unfold findFirstMatch
    have h0 : scanIPs spec 0 "" ips = none := hnone 0 (Nat.succ_pos i)
    rw [h0]
    exact findFirstMatch_priority rest ips i (Nat.lt_of_succ_lt_succ hi) s hscan
      (fun j hj => hnone (j + 1) (Nat.succ_lt_succ hj))

theorem getinterfaceIPs_fst (interfaces : List NetInterface) :
    (getinterfaceIPs interfaces).1 =
      sortByInterfaceThenIP (gatherInterfaceIPs interfaces).1 := by
  rcases hg : gatherInterfaceIPs interfaces with ⟨ips, errs⟩
  simp only [getinterfaceIPs, hg]
  split <;> rfl

/-- Generalized run-index selection: scanning a name-sorted address list
with an indexed rule from state `(index, iface)` selects from the filtered
addresses of the rule's interface, offset by the part of the current run
already counted. -/
theorem scanIPs_indexed (spec : interfaceSpec) (hHI : spec.HasIndex = true)
    (hNet : spec.Network = none) (hStar : spec.Name ≠ "*") :
    ∀ (ips : List interfaceIP) (index : Nat) (iface : String),
      ips.Pairwise (fun a b => goCompareStrings a.Name b.Name ≠ Ordering.gt) →
      (∀ iip ∈ ips, goCompareStrings iface iip.Name ≠ Ordering.gt) →
      (∀ j : Nat, spec.Index = (if iface = spec.Name then index + 1 else 0) + j →
          scanIPs spec index iface ips =
            ((ips.filter (fun x => x.Name == spec.Name))[j]?).map interfaceIP.IPString) ∧
      (spec.Index < (if iface = spec.Name then index + 1 else 0) →
          scanIPs spec index iface ips = none) := by
  intro ips
  induction ips with
  | nil =>
    intro index iface _ _
    constructor
    · intro j _
      simp [scanIPs]
    · intro _
      simp [scanIPs]
  | cons a rest ih =>
    intro index iface hsort hle
    have hsort' : rest.Pairwise (fun a b => goCompareStrings a.Name b.Name ≠ Ordering.gt) :=
      (List.pairwise_cons.1 hsort).2
    have hhead : ∀ x ∈ rest, goCompareStrings a.Name x.Name ≠ Ordering.gt :=
      (List.pairwise_cons.1 hsort).1
    have hlea : goCompareStrings iface a.Name ≠ Ordering.gt :=
      hle a (List.mem_cons_self a rest)
    obtain ⟨v, hv⟩ : ∃ v, (if iface = a.Name then index + 1 else 0) = v := ⟨_, rfl⟩
    have hscan_unfold : scanIPs spec index iface (a :: rest) =
        (if spec.Match v a then some a.IPString
         else scanIPs spec v a.Name rest) := by
      simp only [scanIPs]
      by_cases hif : iface = a.Name
      · rw [← hv, if_pos hif]
        simp [hif]
      · rw [← hv, if_neg hif]
        simp [hif]
    have hMatch : spec.Match v a = (decide (spec.Name = a.Name) && (spec.Index == v)) := by
      unfold interfaceSpec.Match
      by_cases hnm : spec.Name = a.Name
      · simp [hnm, hHI]
      · simp [hnm, hStar, hNet]
    have hfilter : (a :: rest).filter (fun x => x.Name == spec.Name) =
        (if a.Name == spec.Name then [a] else []) ++
          rest.filter (fun x => x.Name == spec.Name) := by
      by_cases hnm : a.Name = spec.Name <;> simp [List.filter_cons, hnm]
    have ihr := ih v a.Name hsort' hhead
    by_cases hn : a.Name = spec.Name
    · -- head on the rule's interface: the seen-count for the recursion grows
      have hseen : (if iface = spec.Name then index + 1 else 0) = v := by
        rw [← hv]
        by_cases hia : iface = a.Name
        · rw [if_pos hia, if_pos (hia.trans hn)]
        · rw [if_neg hia, if_neg (fun hx => hia (hx.trans hn.symm))]
      have hseen' : (if a.Name = spec.Name then v + 1 else 0) = v + 1 := by
        rw [if_pos hn]
      constructor
      · intro j hj
        rw [hseen] at hj
        cases j with
        | zero =>
          have hidx : spec.Index = v := by omega
          rw [hscan_unfold, hMatch, hfilter]
          rw [if_pos (show (decide (spec.Name = a.Name) && (spec.Index == v)) = true by
            simp [hn, hidx])]
          rw [if_pos (show (a.Name == spec.Name) = true by simp [hn])]
          simp
        | succ j2 =>
          have hidx : spec.Index ≠ v := by omega
          rw [hscan_unfold, hMatch, hfilter]
          rw [if_neg (show ¬ (decide (spec.Name = a.Name) && (spec.Index == v)) = true by
            simp only [Bool.and_eq_true, decide_eq_true_eq, beq_iff_eq]
            intro hcon
            exact hidx hcon.2)]
          rw [if_pos (show (a.Name == spec.Name) = true by simp [hn])]
          rw [ihr.1 j2 (by rw [hseen']; omega)]
          simp
      · intro hlt
        rw [hseen] at hlt
        have hidx : spec.Index ≠ v := by omega
        rw [hscan_unfold, hMatch]
        rw [if_neg (show ¬ (decide (spec.Name = a.Name) && (spec.Index == v)) = true by
          simp only [Bool.and_eq_true, decide_eq_true_eq, beq_iff_eq]
          intro hcon
          exact hidx hcon.2)]
        exact ihr.2 (by rw [hseen']; omega)
    · -- head on another interface: no match, and the recursion starts a
      -- fresh run for that interface
      have hMf : spec.Match v a = false := by
        rw [hMatch]
        have hd : decide (spec.Name = a.Name) = false := decide_eq_false (fun h => hn h.symm)
        rw [hd, Bool.false_and]
      have hseen0 : (if a.Name = spec.Name then v + 1 else 0) = 0 := by
        rw [if_neg hn]
      have hfilter' : (a :: rest).filter (fun x => x.Name == spec.Name) =
          rest.filter (fun x => x.Name == spec.Name) := by
        rw [hfilter, if_neg (show ¬ (a.Name == spec.Name) = true by simp [hn]), List.nil_append]
      by_cases hif : iface = spec.Name
      · -- the scanned state had already passed the rule's interface: nothing
        -- named like it can remain in a sorted list
        have hnef : iface ≠ a.Name := fun hx => hn (hx.symm.trans hif)
        have hnorest : rest.filter (fun x => x.Name == spec.Name) = [] := by
          apply List.filter_eq_nil_iff.2
          intro x hx hxeq
          have hxn : x.Name = spec.Name := by simpa using hxeq
          have h1 : goCompareStrings a.Name iface ≠ Ordering.gt := by
            rw [hif, ← hxn]
            exact hhead x hx
          exact hnef (goCompareStrings_le_antisymm hlea h1)
        have hrec := ihr.1 spec.Index (by rw [hseen0]; omega)
        constructor
        · intro j hj
          rw [hscan_unfold, hMf]
          rw [if_neg (by simp)]
          rw [hrec, hfilter', hnorest]
          simp
        · intro hlt
          rw [hscan_unfold, hMf]
          rw [if_neg (by simp)]
          rw [hrec, hnorest]
          simp
      · -- the rule's interface is still ahead
        constructor
        · intro j hj
          rw [if_neg hif, Nat.zero_add] at hj
          rw [hscan_unfold, hMf]
          rw [if_neg (by simp)]
          rw [ihr.1 j (by rw [hseen0]; omega), hfilter']
        · intro hlt
          rw [if_neg hif] at hlt
          omega

/-- Generalized counter characterization: in a name-sorted list, the counter
paired with the `k`-th address is the number of earlier addresses of the same
interface, plus the already-counted part of the run the scan state `(index,
iface)` was in. -/
theorem annotateFrom_getElem :
    ∀ (ips : List interfaceIP) (index : Nat) (iface : String),
      ips.Pairwise (fun a b => goCompareStrings a.Name b.Name ≠ Ordering.gt) →
      (∀ iip ∈ ips, goCompareStrings iface iip.Name ≠ Ordering.gt) →
      ∀ (k : Nat) (hk : k < ips.length),
        (annotateFrom index iface ips)[k]? =
          some ((if iface = (ips.get ⟨k, hk⟩).Name then index + 1 else 0) +
              ((ips.take k).filter (fun x => x.Name == (ips.get ⟨k, hk⟩).Name)).length,
            ips.get ⟨k, hk⟩) := by
  intro ips
  induction ips with
  | nil =>
    intro index iface _ _ k hk
    simp at hk
  | cons a rest ih =>
    intro index iface hsort hle k hk
    have hsort' : rest.Pairwise (fun a b => goCompareStrings a.Name b.Name ≠ Ordering.gt) :=
      (List.pairwise_cons.1 hsort).2
    have hhead : ∀ x ∈ rest, goCompareStrings a.Name x.Name ≠ Ordering.gt :=
      (List.pairwise_cons.1 hsort).1
    have hlea : goCompareStrings iface a.Name ≠ Ordering.gt :=
      hle a (List.mem_cons_self a rest)
    obtain ⟨v, hv⟩ : ∃ v, (if iface = a.Name then index + 1 else 0) = v := ⟨_, rfl⟩
    have hunfold : annotateFrom index iface (a :: rest) = (v, a) :: annotateFrom v a.Name rest := by
      simp only [annotateFrom]
      by_cases hif : iface = a.Name
      · rw [← hv, if_pos hif]
        simp [hif]
      · rw [← hv, if_neg hif]
        simp [hif]
    cases k with
    | zero =>
      rw [hunfold]
      rw [← hv]
      simp
    | succ k2 =>
      have hk2 : k2 < rest.length := by simpa using hk
      rw [hunfold, List.getElem?_cons_succ]
      rw [ih v a.Name hsort' hhead k2 hk2]
      have hget : (a :: rest).get ⟨k2 + 1, hk⟩ = rest.get ⟨k2, hk2⟩ := rfl
      rw [hget]
      have htake : (a :: rest).take (k2 + 1) = a :: rest.take k2 := rfl
      rw [htake]
      by_cases hn : a.Name = (rest.get ⟨k2, hk2⟩).Name
      · have hseen : (if iface = (rest.get ⟨k2, hk2⟩).Name then index + 1 else 0) = v := by
          rw [← hv]
          by_cases hia : iface = a.Name
          · rw [if_pos hia, if_pos (hia.trans hn)]
          · rw [if_neg hia, if_neg (fun hx => hia (hx.trans hn.symm))]
        rw [hseen]
        have hfc : (a :: rest.take k2).filter (fun x => x.Name == (rest.get ⟨k2, hk2⟩).Name) =
            a :: (rest.take k2).filter (fun x => x.Name == (rest.get ⟨k2, hk2⟩).Name) := by
          rw [List.filter_cons, if_pos (show (a.Name == (rest.get ⟨k2, hk2⟩).Name) = true by
            simp only [beq_iff_eq]; exact hn)]
        rw [hfc, if_pos hn]
        simp only [List.length_cons, Option.some.injEq, Prod.mk.injEq]
        exact ⟨by omega, trivial⟩
      · have hisne : iface ≠ (rest.get ⟨k2, hk2⟩).Name := by
          intro hx
          have hmem : rest.get ⟨k2, hk2⟩ ∈ rest := List.get_mem rest k2 hk2
          have h1 : goCompareStrings a.Name iface ≠ Ordering.gt := by
            rw [hx]
            exact hhead _ hmem
          exact hn ((goCompareStrings_le_antisymm hlea h1).symm.trans hx)
        have hfc : (a :: rest.take k2).filter (fun x => x.Name == (rest.get ⟨k2, hk2⟩).Name) =
            (rest.take k2).filter (fun x => x.Name == (rest.get ⟨k2, hk2⟩).Name) := by
          rw [List.filter_cons, if_neg (show ¬ (a.Name == (rest.get ⟨k2, hk2⟩).Name) = true by
            simp only [beq_iff_eq]; exact hn)]
        rw [hfc, if_neg hn, if_neg hisne]

theorem goStringsJoin_no_percent : ∀ es : List String,
    (∀ e ∈ es, ∀ c ∈ e.data, c ≠ '%') →
    ∀ c ∈ (goStringsJoin "\n" es).data, c ≠ '%'
  | [] => by
    intro _ c hc
    cases hc
  | [a] => by
    intro h c hc
    exact h a (List.mem_cons_self a []) c hc
  | a :: b :: rest => by
    intro h c hc
    rw [show goStringsJoin "\n" (a :: b :: rest) = a ++ "\n" ++ goStringsJoin "\n" (b :: rest)
        from rfl] at hc
    rw [String.data_append, String.data_append] at hc
    rcases List.mem_append.1 hc with hc1 | hc2
    · rcases List.mem_append.1 hc1 with hca | hcn
      · exact h a (List.mem_cons_self a _) c hca
      · intro hcp
        rw [hcp] at hcn
        simp at hcn
    · exact goStringsJoin_no_percent (b :: rest)
        (fun e he => h e (List.mem_cons_of_mem a he)) c hc2

/-! ### The claims -/

/-- C3, counterexample: the grammar accepts the bare literal `"inet"`, but
parsing it yields a rule whose `Spec` field was never set, so re-rendering
via `String` produces `""`, not the original text.  (Same for `"inet6"`.) -/
theorem claim3_counterexample :
    parseInterfaceSpec "inet" =
      Except.ok ⟨"", false, "*", none, 0, false⟩ ∧
    interfaceSpec.String ⟨"", false, "*", none, 0, false⟩ = "" ∧
    ("" : String) ≠ "inet" := by
  refine ⟨by rfl, rfl, by decide⟩

/-- C3 (amended): for every accepted specification string other than the two
bare literals `"inet"` and `"inet6"`, parsing and then re-rendering via
`String` yields the original string; the two bare literals re-render as the
empty string because their parsed rule does not store the raw text. -/
theorem claim3_amended {s : String} {sp : interfaceSpec} (h1 : s ≠ "inet")
    (h2 : s ≠ "inet6") (h : parseInterfaceSpec s = Except.ok sp) :
    sp.String = s := by
  rcases parseInterfaceSpec_ok_inv h with ⟨hs, _⟩ | ⟨hs, _⟩ |
    ⟨_, _, name, idx, ver, _, hcases⟩ | ⟨_, _, _, ip, nw, _, hsp⟩
  · exact absurd hs h1
  · exact absurd hs h2
  · rcases hcases with ⟨ds, i, _, _, hsp⟩ | ⟨_, _, hsp⟩ | ⟨_, _, hsp⟩ | ⟨_, _, hsp⟩ <;>
      (rw [hsp]; rfl)
  · rw [hsp]
    rfl

theorem claim3_witness :
    interfaceSpec.String ⟨"eth0:inet6", true, "eth0", none, 0, false⟩ = "eth0:inet6" :=
  claim3_amended (by decide) (by decide) (by rfl)

/-- C9: a failing batch parse makes `GetIP` return the empty string and the
aggregated parse error, whatever the interface enumeration would have
produced — the `interfacesResult` input is universally quantified and never
examined. -/
theorem claim9 {specList : List String} {specs : List interfaceSpec} {err : String}
    (hp : parseInterfaceSpecs specList = (specs, some err)) :
    ∀ interfacesResult : Except String (List NetInterface),
      GetIP specList interfacesResult = ("", some err) := by
  intro ir
  have hne : specList ≠ [] := by
    intro hx
    subst hx
    simp [parseInterfaceSpecs, parseInterfaceSpecsAux] at hp
  have hise : specList.isEmpty = false := by
    cases specList with
    | nil => exact absurd rfl hne
    | cons a rest => rfl
  unfold GetIP
  rw [hise]
  simp only [Bool.false_eq_true, if_false, hp]

theorem claim9_witness :
    GetIP ["eth0", "!!"] (Except.ok [⟨"eth0", Except.ok ["10.0.0.5/24"]⟩]) =
      ("", some "Unable to parse interface spec: !!") :=
  claim9
    (show parseInterfaceSpecs ["eth0", "!!"] =
      ([⟨"eth0", false, "eth0", none, 0, false⟩], some "Unable to parse interface spec: !!")
      from rfl)
    (Except.ok [⟨"eth0", Except.ok ["10.0.0.5/24"]⟩])

/-- C10: a parsed rule with a positional index matches exactly on interface
nameplus counter: the address's IP version and loopback status are not
consulted. -/
theorem claim10 {s : String} {sp : interfaceSpec} (h : parseInterfaceSpec s = Except.ok sp)
    (hHI : sp.HasIndex = true) :
    ∀ (i : Nat) (iip : interfaceIP),
      sp.Match i iip = (iip.Name == sp.Name && sp.Index == i) := by
  rcases parseInterfaceSpec_ok_inv h with ⟨_, hsp⟩ | ⟨_, hsp⟩ |
    ⟨_, _, name, idx, ver, hfind, hcases⟩ | ⟨_, _, _, ip, nw, _, hsp⟩
  · rw [hsp] at hHI
    cases hHI
  · rw [hsp] at hHI
    cases hHI
  · rcases hcases with ⟨ds, i0, hidx, ha, hsp⟩ | ⟨_, _, hsp⟩ | ⟨_, _, hsp⟩ | ⟨_, _, hsp⟩
    · obtain ⟨hne, hword⟩ := ifaceSpecFind_some_name hfind
      have hstar : name ≠ "*" := by
        intro hx
        have hmem : '*' ∈ name.data := by
          rw [hx]
          exact List.mem_cons_self _ _
        exact absurd (hword '*' hmem) (by decide)
      intro i iip
      rw [hsp]
      unfold interfaceSpec.Match
      dsimp only
      by_cases hnm : name = iip.Name
      · rw [if_pos (Or.inl hnm), if_pos rfl]
        have hbeq : (iip.Name == name) = true := by
          simp [hnm]
        rw [hbeq, Bool.true_and]
      · rw [if_neg (by
          rintro (hx | hx)
          · exact hnm hx
          · exact hstar hx)]
        have hbeq : (iip.Name == name) = false := by
          simp only [beq_eq_false_iff_ne, ne_eq]
          exact fun hx => hnm hx.symm
        rw [hbeq, Bool.false_and]
    · rw [hsp] at hHI
      cases hHI
    · rw [hsp] at hHI
      cases hHI
    · rw [hsp] at hHI
      cases hHI
  · rw [hsp] at hHI
    cases hHI

theorem claim10_witness :
    interfaceSpec.Match ⟨"eth0[1]", false, "eth0", none, 1, true⟩ 1
      ⟨"eth0", [0, 0, 0, 0, 0, 0, 0, 0, 0, 0, 0, 0, 0, 0, 0, 1]⟩ = true := by
  have h := @claim10 "eth0[1]" ⟨"eth0[1]", false, "eth0", none, 1, true⟩ rfl rfl
  rw [h 1 ⟨"eth0", [0, 0, 0, 0, 0, 0, 0, 0, 0, 0, 0, 0, 0, 0, 0, 1]⟩]
  decide

/-- C2, counterexample: the rule parsed from the bare interface name
`"eth0"` does not match an IPv6 address of that interface (here
`fe80::1`): `Match` requires `spec.IPv6 != iip.IsIPv4()`, which for a
bare-name rule (`IPv6 = false`) demands an IPv4 address.  There is no
v4-with-v6-fallback. -/
theorem claim2_counterexample :
    parseInterfaceSpec "eth0" = Except.ok ⟨"eth0", false, "eth0", none, 0, false⟩ ∧
    interfaceIP.IsIPv4 ⟨"eth0", [254, 128, 0, 0, 0, 0, 0, 0, 0, 0, 0, 0, 0, 0, 0, 1]⟩ = false ∧
    interfaceSpec.Match ⟨"eth0", false, "eth0", none, 0, false⟩ 0
      ⟨"eth0", [254, 128, 0, 0, 0, 0, 0, 0, 0, 0, 0, 0, 0, 0, 0, 1]⟩ = false := by
  refine ⟨by rfl, by decide, by decide⟩

/-- C2 (amended): a rule parsed from a bare interface name (a nonempty word
other than the literals `"inet"` and `"inet6"`, with no version suffix and
no index) matches exactly the IPv4 addresses of that interface; IPv6
addresses are rejected. -/
theorem claim2_amended {s : String} {sp : interfaceSpec}
    (hne : s.data ≠ []) (hw : ∀ c ∈ s.data, isWordChar c = true)
    (h1 : s ≠ "inet") (h2 : s ≠ "inet6")
    (h : parseInterfaceSpec s = Except.ok sp) :
    ∀ (i : Nat) (iip : interfaceIP),
      sp.Match i iip = (iip.Name == s && iip.IsIPv4) := by
  have hfind : ifaceSpecFind s.data = some (s, none, none) := ifaceSpecFind_all_word hne hw
  have hsp : sp = ⟨s, false, s, none, 0, false⟩ := by
    unfold parseInterfaceSpec at h
    rw [if_neg h1, if_neg h2, hfind] at h
    exact (Except.ok.inj h).symm
  have hstar : s ≠ "*" := by
    intro hx
    have hmem : '*' ∈ s.data := by
      rw [hx]
      exact List.mem_cons_self _ _
    exact absurd (hw '*' hmem) (by decide)
  intro i iip
  rw [hsp]
  unfold interfaceSpec.Match
  dsimp only
  by_cases hnm : s = iip.Name
  · rw [if_pos (Or.inl hnm)]
    have hni : ¬ (s = "*" ∧ goIsLoopback iip.IP = true) := fun hx => hstar hx.1
    rw [if_neg hni]
    have hbeq : (iip.Name == s) = true := by
      simp [hnm]
    rw [hbeq, Bool.true_and]
    cases hb : iip.IsIPv4 <;> rfl
  · rw [if_neg (by
      rintro (hx | hx)
      · exact hnm hx
      · exact hstar hx)]
    have hbeq : (iip.Name == s) = false := by
      simp only [beq_eq_false_iff_ne, ne_eq]
      exact fun hx => hnm hx.symm
    rw [hbeq, Bool.false_and]

theorem claim2_witness :
    interfaceSpec.Match ⟨"eth0", false, "eth0", none, 0, false⟩ 0
      ⟨"eth0", [10, 0, 0, 5]⟩ = true := by
  have h := @claim2_amended "eth0" ⟨"eth0", false, "eth0", none, 0, false⟩
    (by decide) (by decide) (by decide) (by decide) rfl
  rw [h 0 ⟨"eth0", [10, 0, 0, 5]⟩]
  decide

/-- C7, counterexample: a malformed item containing a percent sign.  The
per-item failure message is `"Unable to parse interface spec: %d"`, and the
newline-join of the messages is that same string; but the combined error is
built with `fmt.Errorf` on that join with no arguments, so the `%d` verb is
mangled to `%!d(MISSING)` and the final message is NOT the join.  Other
reachable malformed items exercise further `fmt` directives: a `*` takes
its width from a missing argument (`%!(BADWIDTH)` before the verb's
`%!d(MISSING)`), and a bracketed argument index is out of range
(`%!d(BADINDEX)`). -/
theorem claim7_counterexample :
    parseInterfaceSpec "%d" = Except.error "Unable to parse interface spec: %d" ∧
    goStringsJoin "\n" ["Unable to parse interface spec: %d"] =
      "Unable to parse interface spec: %d" ∧
    parseInterfaceSpecs ["%d"] = ([], some "Unable to parse interface spec: %!d(MISSING)") ∧
    ("Unable to parse interface spec: %!d(MISSING)" : String) ≠
      "Unable to parse interface spec: %d" ∧
    parseInterfaceSpecs ["%*d"] =
      ([], some "Unable to parse interface spec: %!(BADWIDTH)%!d(MISSING)") ∧
    parseInterfaceSpecs ["%[1]d"] =
      ([], some "Unable to parse interface spec: %!d(BADINDEX)") := by
  refine ⟨by rfl, rfl, by rfl, by decide, by rfl, by rfl⟩

/-- C7 (amended): when a batch contains a malformed item, the parser still
returns every well-formed item's rule, in order, together with one combined
error; the combined error's message is the `fmt` rendering of the
newline-join of the individual per-item messages in their original order,
and it equals that join exactly whenever no individual message contains a
percent sign (a percent sign in a malformed raw spec is re-interpreted by
`fmt.Errorf` as a format verb and mangled). -/
theorem claim7_amended (interfaces : List String) (hbad : specErrs interfaces ≠ []) :
    parseInterfaceSpecs interfaces =
      (specOks interfaces,
        some (goErrorfNoArgs (goStringsJoin "\n" (specErrs interfaces)))) ∧
    ((∀ e ∈ specErrs interfaces, ∀ c ∈ e.data, c ≠ '%') →
      parseInterfaceSpecs interfaces =
        (specOks interfaces, some (goStringsJoin "\n" (specErrs interfaces)))) := by
  constructor
  · rw [parseInterfaceSpecs_eq, if_neg hbad]
  · intro hnp
    rw [parseInterfaceSpecs_eq, if_neg hbad,
      goErrorfNoArgs_id _ (goStringsJoin_no_percent _ hnp)]

theorem claim7_witness :
    parseInterfaceSpecs ["eth0", "!!", "eth1:inet6", "[3]"] =
      ([⟨"eth0", false, "eth0", none, 0, false⟩,
        ⟨"eth1:inet6", true, "eth1", none, 0, false⟩],
       some "Unable to parse interface spec: !!\nUnable to parse interface spec: [3]") := by
  have h := (claim7_amended ["eth0", "!!", "eth1:inet6", "[3]"] (by decide)).2 (by decide)
  rw [h]
  rfl

/-- C8: the wildcard (global-version) rules parsed from `"inet"` and
`"inet6"` never match a loopback address; a wildcard match forces the
address's IP version to agree with the rule (`IsIPv4` for `"inet"`, not
`IsIPv4` for `"inet6"`); and against a host whose addresses are all
loopback, resolution with such a rule fails with the no-match error. -/
theorem claim8 {s : String} {sp : interfaceSpec} (hs : s = "inet" ∨ s = "inet6")
    (h : parseInterfaceSpec s = Except.ok sp) :
    (∀ (i : Nat) (iip : interfaceIP), goIsLoopback iip.IP = true → sp.Match i iip = false) ∧
    (∀ (i : Nat) (iip : interfaceIP), sp.Match i iip = true →
      (sp.IPv6 = false → iip.IsIPv4 = true) ∧ (sp.IPv6 = true → iip.IsIPv4 = false)) ∧
    (∀ ips : List interfaceIP, (∀ iip ∈ ips, goIsLoopback iip.IP = true) →
      findIPWithSpecs [sp] ips = ("", some (noMatchMessage [sp] ips))) := by
  have hsp : sp = ⟨"", sp.IPv6, "*", none, 0, false⟩ := by
    rcases hs with hs | hs <;>
      (subst hs
       unfold parseInterfaceSpec at h)
    · rw [if_pos rfl] at h
      rw [← Except.ok.inj h]
    · rw [if_neg (by decide), if_pos rfl] at h
      rw [← Except.ok.inj h]
  have hMatch : ∀ (i : Nat) (iip : interfaceIP),
      sp.Match i iip = if goIsLoopback iip.IP = true then false else (sp.IPv6 != iip.IsIPv4) := by
    intro i iip
    conv_lhs => rw [hsp]
    unfold interfaceSpec.Match
    dsimp only
    rw [if_pos (Or.inr rfl), if_neg (show ¬ (false = true) by decide)]
    by_cases hl : goIsLoopback iip.IP = true
    · rw [if_pos (show ("*" : String) = "*" ∧ goIsLoopback iip.IP = true from ⟨rfl, hl⟩),
        if_pos hl]
    · rw [if_neg (show ¬ (("*" : String) = "*" ∧ goIsLoopback iip.IP = true) from
        fun hx => hl hx.2), if_neg hl]
  refine ⟨?_, ?_, ?_⟩
  · intro i iip hl
    rw [hMatch, if_pos hl]
  · intro i iip hm
    rw [hMatch] at hm
    by_cases hl : goIsLoopback iip.IP = true
    · rw [if_pos hl] at hm
      cases hm
    · rw [if_neg hl] at hm
      constructor
      · intro h6
        rw [h6] at hm
        cases hb : iip.IsIPv4
        · rw [hb] at hm
          cases hm
        · rfl
      · intro h6
        rw [h6] at hm
        cases hb : iip.IsIPv4
        · rfl
        · rw [hb] at hm
          cases hm
  · intro ips hlp
    have hscan : ∀ (l : List interfaceIP), (∀ iip ∈ l, goIsLoopback iip.IP = true) →
        ∀ (idx : Nat) (ifc : String), scanIPs sp idx ifc l = none := by
      intro l
      induction l with
      | nil => intro _ idx ifc; rfl
      | cons a rest ihp =>
        intro hl idx ifc
        simp only [scanIPs]
        rw [hMatch, if_pos (hl a (List.mem_cons_self a rest))]
        simp only [Bool.false_eq_true, if_false]
        exact ihp (fun x hx => hl x (List.mem_cons_of_mem a hx)) _ _
    unfold findIPWithSpecs findFirstMatch
    rw [hscan ips hlp 0 ""]
    rfl

theorem claim8_witness :
    findIPWithSpecs [⟨"", false, "*", none, 0, false⟩] [⟨"lo", [127, 0, 0, 1]⟩] =
      ("", some (noMatchMessage [⟨"", false, "*", none, 0, false⟩] [⟨"lo", [127, 0, 0, 1]⟩])) := by
  have h := (@claim8 "inet" ⟨"", false, "*", none, 0, false⟩ (Or.inl rfl) rfl).2.2
  exact h [⟨"lo", [127, 0, 0, 1]⟩] (by decide)

/-- C1, counterexample: a CIDR rule does NOT match regardless of the
address's interface name.  A CIDR rule stores the empty string as its
`Name`; an address whose interface name is also empty therefore takes the
named-interface branch of `Match`, which for a v6 address in the network
(here `2001:db8::1` in `2001:db8::/32`) returns false. -/
theorem claim1_counterexample :
    parseInterfaceSpec "2001:db8::/32" =
      Except.ok ⟨"2001:db8::/32", false, "",
        some ⟨[32, 1, 13, 184, 0, 0, 0, 0, 0, 0, 0, 0, 0, 0, 0, 0],
              [255, 255, 255, 255, 0, 0, 0, 0, 0, 0, 0, 0, 0, 0, 0, 0]⟩, 0, false⟩ ∧
    goContains ⟨[32, 1, 13, 184, 0, 0, 0, 0, 0, 0, 0, 0, 0, 0, 0, 0],
        [255, 255, 255, 255, 0, 0, 0, 0, 0, 0, 0, 0, 0, 0, 0, 0]⟩
      [32, 1, 13, 184, 0, 0, 0, 0, 0, 0, 0, 0, 0, 0, 0, 1] = true ∧
    interfaceSpec.Match
      ⟨"2001:db8::/32", false, "",
        some ⟨[32, 1, 13, 184, 0, 0, 0, 0, 0, 0, 0, 0, 0, 0, 0, 0],
              [255, 255, 255, 255, 0, 0, 0, 0, 0, 0, 0, 0, 0, 0, 0, 0]⟩, 0, false⟩ 0
      ⟨"", [32, 1, 13, 184, 0, 0, 0, 0, 0, 0, 0, 0, 0, 0, 0, 1]⟩ = false := by
  refine ⟨by rfl, by rfl, by rfl⟩

/-- C1 (amended): rules are evaluated strictly in list order — if rule `i`
is the first whose scan hits, the overall result is that rule's hit, even
if later rules would also match; within one rule the scan tests the
addresses in list (sorted) order with their positional counters, returning
the display string of the first satisfying address; and a CIDR rule matches
any address contained in its network regardless of the address's interface
name, provided that name is nonempty (an address with an empty interface
name equals the CIDR rule's empty `Name` field and is diverted to
named-interface matching instead). -/
theorem claim1_amended :
    (∀ (specs : List interfaceSpec) (ips : List interfaceIP) (i : Nat) (hi : i < specs.length)
        (s : String),
        scanIPs (specs.get ⟨i, hi⟩) 0 "" ips = some s →
        (∀ j (hj : j < i), scanIPs (specs.get ⟨j, Nat.lt_trans hj hi⟩) 0 "" ips = none) →
        findIPWithSpecs specs ips = (s, none)) ∧
    (∀ (spec : interfaceSpec) (ips : List interfaceIP) (index : Nat) (iface : String),
        scanIPs spec index iface ips =
          ((annotateFrom index iface ips).find? (fun p => spec.Match p.1 p.2)).map
            (fun p => p.2.IPString)) ∧
    (∀ (str : String) (spec : interfaceSpec) (nw : IPNet) (iip : interfaceIP) (index : Nat),
        parseInterfaceSpec str = Except.ok spec → spec.Network = some nw →
        iip.Name ≠ "" → goContains nw iip.IP = true → spec.Match index iip = true) := by
  refine ⟨?_, ?_, ?_⟩
  · intro specs ips i hi s hscan hnone
    unfold findIPWithSpecs
    rw [findFirstMatch_priority specs ips i hi s hscan hnone]
  · intro spec ips index iface
    exact scanIPs_eq_find spec ips index iface
  · intro str spec nw iip index hp hnw hname hcont
    have hsp : spec = ⟨str, false, "", some nw, 0, false⟩ := by
      rcases parseInterfaceSpec_ok_inv hp with ⟨_, hsp⟩ | ⟨_, hsp⟩ |
        ⟨_, _, name, idx, ver, _, hcases⟩ | ⟨_, _, _, ip, nw2, _, hsp⟩
      · rw [hsp] at hnw
        cases hnw
      · rw [hsp] at hnw
        cases hnw
      · rcases hcases with ⟨ds, i0, _, _, hsp⟩ | ⟨_, _, hsp⟩ | ⟨_, _, hsp⟩ | ⟨_, _, hsp⟩ <;>
          (rw [hsp] at hnw; cases hnw)
      · rw [hsp] at hnw
        have : nw2 = nw := Option.some.inj hnw
        rw [hsp, this]
    rw [hsp]
    unfold interfaceSpec.Match
    dsimp only
    rw [if_neg (by
      rintro (hx | hx)
      · exact hname hx.symm
      · exact absurd hx (by decide))]
    exact hcont

theorem claim1_witness :
    findIPWithSpecs
      [⟨"192.168.0.0/16", false, "", some ⟨[192, 168, 0, 0], [255, 255, 0, 0]⟩, 0, false⟩,
       ⟨"eth0:inet", false, "eth0", none, 0, false⟩]
      [⟨"eth0", [0, 0, 0, 0, 0, 0, 0, 0, 0, 0, 255, 255, 172, 16, 0, 4]⟩,
       ⟨"eth1", [0, 0, 0, 0, 0, 0, 0, 0, 0, 0, 255, 255, 192, 168, 5, 5]⟩] =
      ("192.168.5.5", none) ∧
    interfaceSpec.Match
      ⟨"192.168.0.0/16", false, "", some ⟨[192, 168, 0, 0], [255, 255, 0, 0]⟩, 0, false⟩ 0
      ⟨"eth1", [0, 0, 0, 0, 0, 0, 0, 0, 0, 0, 255, 255, 192, 168, 5, 5]⟩ = true := by
  constructor
  · exact claim1_amended.1
      [⟨"192.168.0.0/16", false, "", some ⟨[192, 168, 0, 0], [255, 255, 0, 0]⟩, 0, false⟩,
       ⟨"eth0:inet", false, "eth0", none, 0, false⟩]
      [⟨"eth0", [0, 0, 0, 0, 0, 0, 0, 0, 0, 0, 255, 255, 172, 16, 0, 4]⟩,
       ⟨"eth1", [0, 0, 0, 0, 0, 0, 0, 0, 0, 0, 255, 255, 192, 168, 5, 5]⟩]
      0 (by decide) "192.168.5.5" (by rfl) (fun j hj => absurd hj (by omega))
  · exact claim1_amended.2.2 "192.168.0.0/16"
      ⟨"192.168.0.0/16", false, "", some ⟨[192, 168, 0, 0], [255, 255, 0, 0]⟩, 0, false⟩
      ⟨[192, 168, 0, 0], [255, 255, 0, 0]⟩
      ⟨"eth1", [0, 0, 0, 0, 0, 0, 0, 0, 0, 0, 255, 255, 192, 168, 5, 5]⟩ 0
      (by rfl) rfl (by decide) (by rfl)

/-- C6: with a successfully parsed, nonempty specification list, enumeration
is fatal exactly when it yielded no address and an error occurred — `GetIP`
then returns the accumulated enumeration error and no address; whenever at
least one address was gathered (or no error occurred at all), `GetIP`
proceeds to selection over the gathered, sorted list. -/
theorem claim6 {specList : List String} {specs : List interfaceSpec}
    (hne : specList ≠ []) (hp : parseInterfaceSpecs specList = (specs, none))
    (interfaces : List NetInterface) :
    (∀ e, (getinterfaceIPs interfaces).2 = some e → (getinterfaceIPs interfaces).1 = [] →
      GetIP specList (Except.ok interfaces) = ("", some e)) ∧
    ((getinterfaceIPs interfaces).1 ≠ [] →
      GetIP specList (Except.ok interfaces) =
        findIPWithSpecs specs (getinterfaceIPs interfaces).1) ∧
    ((getinterfaceIPs interfaces).2 = none →
      GetIP specList (Except.ok interfaces) =
        findIPWithSpecs specs (getinterfaceIPs interfaces).1) := by
  have hise : specList.isEmpty = false := by
    cases specList with
    | nil => exact absurd rfl hne
    | cons a rest => rfl
  have hG : GetIP specList (Except.ok interfaces) =
      (match getinterfaceIPs interfaces with
       | (interfaceIPs, some e) =>
         if interfaceIPs.length < 1 then ("", some e)
         else findIPWithSpecs specs interfaceIPs
       | (interfaceIPs, none) => findIPWithSpecs specs interfaceIPs) := by
    unfold GetIP
    rw [hise]
    simp only [Bool.false_eq_true, if_false, hp]
  rcases hg : getinterfaceIPs interfaces with ⟨ips, errOpt⟩
  rw [hg] at hG
  refine ⟨?_, ?_, ?_⟩
  · intro e he hnil
    simp only [hg] at he hnil
    subst hnil
    cases errOpt with
    | none => cases he
    | some e2 =>
      dsimp only at hG
      rw [Option.some.inj he] at hG
      rw [hG]
      rfl
  · intro hnnil
    simp only [hg] at hnnil ⊢
    cases errOpt with
    | none =>
      dsimp only at hG
      exact hG
    | some e2 =>
      dsimp only at hG
      rw [hG]
      rw [if_neg (by
        intro hlt
        have hnil : ips = [] := List.length_eq_zero.1 (by omega)
        exact hnnil hnil)]
  · intro hnone
    simp only [hg] at hnone ⊢
    cases errOpt with
    | none =>
      dsimp only at hG
      exact hG
    | some e2 => cases hnone

theorem claim6_witness :
    GetIP ["eth0"]
      (Except.ok [⟨"zzz", Except.error "boom"⟩, ⟨"eth0", Except.ok ["10.0.0.5/24"]⟩]) =
      findIPWithSpecs [⟨"eth0", false, "eth0", none, 0, false⟩]
        [⟨"eth0", [0, 0, 0, 0, 0, 0, 0, 0, 0, 0, 255, 255, 10, 0, 0, 5]⟩] ∧
    GetIP ["eth0"] (Except.ok [⟨"zzz", Except.error "boom"⟩]) = ("", some "boom") := by
  have hg1 : gatherInterfaceIPs
      [⟨"zzz", Except.error "boom"⟩, ⟨"eth0", Except.ok ["10.0.0.5/24"]⟩] =
      ([⟨"eth0", [0, 0, 0, 0, 0, 0, 0, 0, 0, 0, 255, 255, 10, 0, 0, 5]⟩], ["boom"]) := rfl
  have hfst1 : (getinterfaceIPs
      [⟨"zzz", Except.error "boom"⟩, ⟨"eth0", Except.ok ["10.0.0.5/24"]⟩]).1 =
      [⟨"eth0", [0, 0, 0, 0, 0, 0, 0, 0, 0, 0, 255, 255, 10, 0, 0, 5]⟩] := by
    rw [getinterfaceIPs_fst, hg1]
    exact List.mergeSort_singleton _
  have hg2 : gatherInterfaceIPs [⟨"zzz", Except.error "boom"⟩] = ([], ["boom"]) := rfl
  constructor
  · have h := (@claim6 ["eth0"] [⟨"eth0", false, "eth0", none, 0, false⟩] (by decide) rfl
      [⟨"zzz", Except.error "boom"⟩, ⟨"eth0", Except.ok ["10.0.0.5/24"]⟩]).2.1
    rw [hfst1] at h
    exact h (by decide)
  · have h := (@claim6 ["eth0"] [⟨"eth0", false, "eth0", none, 0, false⟩] (by decide) rfl
      [⟨"zzz", Except.error "boom"⟩]).1
    have hfst2 : (getinterfaceIPs [⟨"zzz", Except.error "boom"⟩]).1 = [] := by
      rw [getinterfaceIPs_fst, hg2]
      exact List.mergeSort_nil
    have hsnd2 : (getinterfaceIPs [⟨"zzz", Except.error "boom"⟩]).2 = some "boom" := by
      simp only [getinterfaceIPs, hg2]
      rfl
    exact h "boom" hsnd2 hfst2

/-- C5: the address list handed to the selector is sorted by interface name
ascending and, within equal names, by the 16-byte normalized form ascending;
the sort is idempotent (so re-sorting an already sorted list is the
identity, and the pure sort function is deterministic by construction); and
it is stable: any two elements that are not inverted under `Less` keep
their input order. -/
theorem claim5 :
    (∀ interfaces : List NetInterface,
        (getinterfaceIPs interfaces).1.Pairwise (fun a b =>
          goCompareStrings a.Name b.Name = Ordering.lt ∨
            (a.Name = b.Name ∧
              goCompareBytes (a.To16.getD []) (b.To16.getD []) ≠ Ordering.gt))) ∧
    (∀ l : List interfaceIP,
        sortByInterfaceThenIP (sortByInterfaceThenIP l) = sortByInterfaceThenIP l) ∧
    (∀ (l : List interfaceIP) (a b : interfaceIP),
        List.Sublist [a, b] l → ByInterfaceThenIP.Less b a = false →
        List.Sublist [a, b] (sortByInterfaceThenIP l)) := by
  have hsorted : ∀ l : List interfaceIP,
      (sortByInterfaceThenIP l).Pairwise (fun a b => iipLE a b = true) :=
    fun l => List.sorted_mergeSort iipLE_trans iipLE_total l
  refine ⟨?_, ?_, ?_⟩
  · intro interfaces
    rw [getinterfaceIPs_fst]
    exact (hsorted _).imp (fun h => (iipLE_iff _ _).1 h)
  · intro l
    unfold sortByInterfaceThenIP
    exact List.mergeSort_of_sorted (hsorted l)
  · intro l a b hsub hle
    unfold sortByInterfaceThenIP
    apply List.sublist_mergeSort iipLE_trans iipLE_total ?_ hsub
    refine List.pairwise_cons.2 ⟨?_, List.pairwise_singleton _ _⟩
    intro c hc
    rw [List.mem_singleton.1 hc]
    unfold iipLE
    rw [hle]
    rfl

theorem claim5_witness :
    List.Sublist
      [⟨"eth0", [10, 0, 0, 5]⟩, ⟨"eth0", [10, 0, 0, 6]⟩]
      (sortByInterfaceThenIP [⟨"eth0", [10, 0, 0, 5]⟩, ⟨"eth0", [10, 0, 0, 6]⟩]) :=
  claim5.2.2 [⟨"eth0", [10, 0, 0, 5]⟩, ⟨"eth0", [10, 0, 0, 6]⟩]
    ⟨"eth0", [10, 0, 0, 5]⟩ ⟨"eth0", [10, 0, 0, 6]⟩
    (List.Sublist.refl _) (by decide)

/-- C4, counterexample: the positional counter is NOT 0 at the first
address of every distinct interface name.  The scan's previous-name state
starts as the empty string, so an address whose interface name is itself
the empty string is treated as a continuation of the initial run and gets
counter 1 at the very first position. -/
theorem claim4_counterexample :
    annotateIndices [⟨"", [127, 0, 0, 1]⟩] = [(1, ⟨"", [127, 0, 0, 1]⟩)] := rfl

/-- C4 (amended): in a name-sorted address list in which no interface is
named by the empty string, the positional counter is 0 at the first address
of each distinct interface name and increments by 1 for each subsequent
address of the same name — the counter paired with the `k`-th address is
exactly the number of earlier addresses of the same interface; and since
grammar rule names are nonempty, a rule `name[i]` selects exactly the
zero-based `i`-th address bound to `name` in sorted order (an interface
named by the empty string placed at the head of the scan would instead
start at counter 1, continuing the scan's initial sentinel run). -/
theorem claim4_amended :
    (∀ (ips : List interfaceIP),
        ips.Pairwise (fun a b => goCompareStrings a.Name b.Name ≠ Ordering.gt) →
        (∀ iip ∈ ips, iip.Name ≠ "") →
        ∀ (k : Nat) (hk : k < ips.length),
          (annotateIndices ips)[k]? =
            some (((ips.take k).filter (fun x => x.Name == (ips.get ⟨k, hk⟩).Name)).length,
              ips.get ⟨k, hk⟩)) ∧
    (∀ (spec : interfaceSpec) (ips : List interfaceIP),
        spec.HasIndex = true → spec.Network = none → spec.Name ≠ "*" → spec.Name ≠ "" →
        ips.Pairwise (fun a b => goCompareStrings a.Name b.Name ≠ Ordering.gt) →
        scanIPs spec 0 "" ips =
          ((ips.filter (fun x => x.Name == spec.Name))[spec.Index]?).map
            interfaceIP.IPString) := by
  constructor
  · intro ips hsort hnames k hk
    have hle : ∀ iip ∈ ips, goCompareStrings "" iip.Name ≠ Ordering.gt :=
      fun iip _ => goCompareStrings_empty_left _
    have h := annotateFrom_getElem ips 0 "" hsort hle k hk
    have hgn : (ips.get ⟨k, hk⟩).Name ≠ "" := hnames _ (List.get_mem ips k hk)
    rw [if_neg (fun hx => hgn hx.symm), Nat.zero_add] at h
    exact h
  · intro spec ips hHI hNet hstar hne0 hsort
    have hle : ∀ iip ∈ ips, goCompareStrings "" iip.Name ≠ Ordering.gt :=
      fun iip _ => goCompareStrings_empty_left _
    exact (scanIPs_indexed spec hHI hNet hstar ips 0 "" hsort hle).1 spec.Index
      (by rw [if_neg (fun hx => hne0 hx.symm)]; omega)

theorem claim4_witness :
    scanIPs ⟨"eth0[1]", false, "eth0", none, 1, true⟩ 0 ""
      [⟨"eth0", [10, 0, 0, 5]⟩, ⟨"eth0", [10, 0, 0, 6]⟩] = some "10.0.0.6" := by
  have h := claim4_amended.2 ⟨"eth0[1]", false, "eth0", none, 1, true⟩
    [⟨"eth0", [10, 0, 0, 5]⟩, ⟨"eth0", [10, 0, 0, 6]⟩] rfl rfl (by decide) (by decide)
    (by decide)
  rw [h]
  rfl
